import Mathlib

/-! The Poincare `Power` node (src/poincare/src/power.cpp).

A shallow embedding of the numeric evaluation of the power operator.

* `Flt R` models the values of the C type `float`: NaN, the two infinities and the finite
  values, the latter carried by an ordered field `R` (`ℚ` to compute, `ℝ` for exact real
  arithmetic).  Comparisons, negation, `isnan`, `isinf`, `roundf` and the conversions from and to
  `int` are exactly specified by IEEE 754 and C, and are defined here.  The two zeros of IEEE 754
  compare equal and are one value here.
* `Arith R` carries the operations whose result depends on rounding or on the C library
  (`powf`, `logf`, products, sums, ...), together with the value the platform gives to a
  conversion to `int` that C leaves undefined.  The evaluators take it as a parameter, so every
  theorem stated for all `A : Arith R` holds for each way of rounding.
* `Env R` carries the collaborators of the evaluators that live in other files of the engine.
-/

namespace Poincare

/-! ## Floating-point values -/

/-- Values of the C type `float`. -/
inductive Flt (R : Type) where
  | nan : Flt R
  | ninf : Flt R
  | pinf : Flt R
  | fin (x : R) : Flt R

namespace Flt

variable {R : Type} [LinearOrderedField R] [FloorRing R]

/-- C `x == y` on floats: NaN is equal to nothing, itself included. -/
def eq : Flt R → Flt R → Bool
  | fin x, fin y => decide (x = y)
  | ninf, ninf => true
  | pinf, pinf => true
  | _, _ => false

/-- C `x != y` on floats, the negation of `x == y`. -/
def ne (x y : Flt R) : Bool := !(eq x y)

/-- C `x < y` on floats: false as soon as one side is NaN. -/
def lt : Flt R → Flt R → Bool
  | fin x, fin y => decide (x < y)
  | ninf, fin _ => true
  | ninf, pinf => true
  | fin _, pinf => true
  | _, _ => false

/-- C `x <= y` on floats: false as soon as one side is NaN. -/
def le : Flt R → Flt R → Bool
  | fin x, fin y => decide (x ≤ y)
  | ninf, ninf => true
  | ninf, fin _ => true
  | ninf, pinf => true
  | fin _, pinf => true
  | pinf, pinf => true
  | _, _ => false

/-- C unary minus on floats. -/
def neg : Flt R → Flt R
  | nan => nan
  | ninf => pinf
  | pinf => ninf
  | fin x => fin (-x)

/-- C `isnan`. -/
def isnan : Flt R → Bool
  | nan => true
  | _ => false

/-- C `isinf`. -/
def isinf : Flt R → Bool
  | ninf => true
  | pinf => true
  | _ => false

/-- Rounding of a finite value to the nearest integer, halfway cases away from zero. -/
def roundAway (x : R) : Int :=
  if 0 ≤ x then ⌊x + 1 / 2⌋ else ⌈x - 1 / 2⌉

/-- C `roundf`. -/
def roundf : Flt R → Flt R
  | fin x => fin ((roundAway x : Int) : R)
  | x => x

/-- Truncation of a finite value toward zero. -/
def trunc (x : R) : Int :=
  if 0 ≤ x then ⌊x⌋ else ⌈x⌉

/-- Least value of the C type `int` (32 bits). -/
def INT_MIN : Int := -2147483648

/-- Greatest value of the C type `int` (32 bits). -/
def INT_MAX : Int := 2147483647

/-- C `(int)x`: truncation toward zero when the truncated value fits in `int`.  Otherwise (NaN,
infinite, out of range) C leaves the conversion undefined and `ub x` is the value the platform
produces. -/
def toInt (ub : Flt R → Int) : Flt R → Int
  | fin x => if INT_MIN ≤ trunc x ∧ trunc x ≤ INT_MAX then trunc x else ub (fin x)
  | x => ub x

/-- C conversion of an `int` to `float`.  It is exact on every `int` obtained by truncating a
float, the only use made of it in this file. -/
def ofInt (n : Int) : Flt R := fin (n : R)

end Flt

/-- The floating-point operations whose result depends on rounding, on the C library or on the
platform. -/
structure Arith (R : Type) where
  /-- C `powf`. -/
  powf : Flt R → Flt R → Flt R
  /-- C `logf`. -/
  logf : Flt R → Flt R
  /-- C `sqrtf`. -/
  sqrtf : Flt R → Flt R
  /-- C `cosf`. -/
  cosf : Flt R → Flt R
  /-- C `sinf`. -/
  sinf : Flt R → Flt R
  /-- C `atan2f y x`. -/
  atan2f : Flt R → Flt R → Flt R
  /-- Float product. -/
  mul : Flt R → Flt R → Flt R
  /-- Float sum. -/
  add : Flt R → Flt R → Flt R
  /-- Value of `(int)x` where C leaves it undefined. -/
  fptosi : Flt R → Int

/-! ## Complex numbers -/

/-- Modelled from the spec: the class `Complex` (declared in poincare/complex.h, not part of the
listed sources): a pair of a real part `a` and an imaginary part `b`. -/
structure Complex (R : Type) where
  a : Flt R
  b : Flt R

namespace Complex

variable {R : Type} [LinearOrderedField R] [FloorRing R]

/-- Modelled from the spec: `Complex::Float(x)`, the real scalar `x` (imaginary part 0). -/
def Float (x : Flt R) : Complex R := ⟨x, Flt.fin 0⟩

/-- Modelled from the spec: `Complex::Cartesian(a, b)`. -/
def Cartesian (a b : Flt R) : Complex R := ⟨a, b⟩

/-- Modelled from the spec: `Complex::Polar(r, th)`, the complex number of radius `r` and angle
`th`, that is `(r cos th, r sin th)`. -/
def Polar (A : Arith R) (r th : Flt R) : Complex R :=
  ⟨A.mul r (A.cosf th), A.mul r (A.sinf th)⟩

/-- Modelled from the spec: `Complex::r()`, the radius `√(a² + b²)`. -/
def r (A : Arith R) (c : Complex R) : Flt R :=
  A.sqrtf (A.add (A.mul c.a c.a) (A.mul c.b c.b))

/-- Modelled from the spec: `Complex::th()`, the angle `atan2(b, a)`. -/
def th (A : Arith R) (c : Complex R) : Flt R :=
  A.atan2f c.b c.a

end Complex

/-! ## Matrices and evaluation results -/

/-- Modelled from the spec: the class `Matrix` (declared in poincare/matrix.h): a dense row-major
container of complex entries with its two dimensions. -/
structure Matrix (R : Type) where
  numberOfRows : Nat
  numberOfColumns : Nat
  operands : List (Complex R)

/-- Number of entries of a matrix, `Matrix::numberOfOperands()`. -/
def Matrix.numberOfOperands {R : Type} (m : Matrix R) : Nat := m.operands.length

/-- The values an evaluation produces: a complex scalar or a matrix. -/
inductive Expression (R : Type) where
  | complex (c : Complex R) : Expression R
  | matrix (m : Matrix R) : Expression R

/-- Every slot of a buffer of pointers, when each of them has been set. -/
def allSet {α : Type} : List (Option α) → Option (List α)
  | [] => some []
  | none :: _ => none
  | some x :: rest => (allSet rest).map (fun xs => x :: xs)

/-- Modelled from the spec: `new Matrix(new MatrixData(operands, numberOfOperands,
numberOfColumns, numberOfRows, false))`: the matrix of the given dimensions whose entries are the
first `numberOfOperands` slots of the buffer.  There is no matrix when one of them is unset. -/
def Matrix.ofBuffer {R : Type} (operands : List (Option (Complex R)))
    (numberOfOperands numberOfColumns numberOfRows : Nat) : Option (Matrix R) :=
  (allSet (operands.take numberOfOperands)).map
    (fun entries => ⟨numberOfRows, numberOfColumns, entries⟩)

/-- The collaborators of the Power evaluators that live in other files of the engine. -/
structure Env (R : Type) where
  /-- `Complex::approximate(context, angleUnit)`. -/
  approximate : Complex R → Flt R
  /-- `Matrix::createInverse(context, angleUnit)`. -/
  createInverse : Matrix R → Expression R
  /-- The evaluation of a Multiplication node built on two values. -/
  multiply : Expression R → Expression R → Expression R

namespace Power

variable {R : Type} [LinearOrderedField R] [FloorRing R]

/-- `Power::privateApproximate` (power.cpp:12-15), given the approximations `x` and `y` of the two
operands. -/
def privateApproximate (A : Arith R) (x y : Flt R) : Flt R :=
  A.powf x y

/-- `Power::evaluateOnComplex` (power.cpp:38-66). -/
def evaluateOnComplex (A : Arith R) (c d : Complex R) : Expression R :=
  if Flt.ne d.b (Flt.fin 0) then
    -- First case c and d is complex
    if Flt.ne c.b (Flt.fin 0) || Flt.le c.a (Flt.fin 0) then
      .complex (Complex.Float Flt.nan)
    else
      -- Second case only d is complex
      let radius := A.powf c.a d.a
      let theta := A.mul d.b (A.logf c.a)
      .complex (Complex.Polar A radius theta)
  else
    -- Third case only c is complex
    let radius := A.powf (c.r A) d.a
    if Flt.eq c.b (Flt.fin 0) && Flt.eq d.a (Flt.roundf d.a) then
      .complex (Complex.Cartesian radius (Flt.fin 0))
    else if Flt.lt c.a (Flt.fin 0) && Flt.eq c.b (Flt.fin 0) && Flt.eq d.a (Flt.fin (1 / 2)) then
      .complex (Complex.Cartesian (Flt.fin 0) radius)
    else
      let theta := A.mul d.a (c.th A)
      .complex (Complex.Polar A radius theta)

/-- `Power::evaluateOnComplexAndMatrix` (power.cpp:121-123). -/
def evaluateOnComplexAndMatrix (_c : Complex R) (_m : Matrix R) : Expression R :=
  .complex (Complex.Float Flt.nan)

/-- `Power::evaluateOnMatrices` (power.cpp:125-127). -/
def evaluateOnMatrices (_m _n : Matrix R) : Expression R :=
  .complex (Complex.Float Flt.nan)

/-- The buffer `operands` of power.cpp:81-90: `numberOfOperands` slots, none of them set by
`malloc`, then written by the two nested loops at the index `i * numberOfColumns + j`.  A write
outside the buffer is dropped. -/
def identityOperands (m : Matrix R) : List (Option (Complex R)) :=
  (List.range m.numberOfRows).foldl
    (fun operands i =>
      (List.range m.numberOfColumns).foldl
        (fun operands j =>
          if i = j then
            operands.set (i * m.numberOfColumns + j) (some (Complex.Float (Flt.fin 1)))
          else
            operands.set (i * m.numberOfColumns + j) (some (Complex.Float (Flt.fin 0))))
        operands)
    (List.replicate m.numberOfOperands none)

/-- Modelled from the spec: the dispatch of `Expression::evaluate` on a Power node (it lives in
files of the engine that are not part of the listed sources): the operands are evaluated, here
they are values already, then the algorithm of the pair of kinds is invoked.  The evaluator of the
pair (matrix, complex) is the argument `onMatrixAndComplex`; it receives the approximation of the
exponent operand. -/
def evaluateWith (A : Arith R) (E : Env R)
    (onMatrixAndComplex : Flt R → Matrix R → Complex R → Option (Expression R))
    (base exponent : Expression R) : Option (Expression R) :=
  match base, exponent with
  | .complex c, .complex d => some (evaluateOnComplex A c d)
  | .matrix m, .complex d => onMatrixAndComplex (E.approximate d) m d
  | .complex c, .matrix m => some (evaluateOnComplexAndMatrix c m)
  | .matrix m, .matrix n => some (evaluateOnMatrices m n)

/-- The NaN scalar `new Complex(Complex::Float(NAN))`. -/
def nanScalar : Expression R := .complex (Complex.Float Flt.nan)

/-- `Power::evaluateOnMatrixAndComplex` (power.cpp:68-119).  `operand1` is the value of
`m_operands[1]->approximate(context, angleUnit)`.  The recursion of line 103 goes through the
evaluation of a new Power node; `fuel` bounds its depth, and the result is `none` when the fuel is
spent or when the identity is built from a buffer with a slot left unset. -/
def evaluateOnMatrixAndComplex (A : Arith R) (E : Env R) :
    Nat → Flt R → Matrix R → Complex R → Option (Expression R)
  | 0, _, _, _ => none
  | fuel + 1, operand1, m, c =>
    if Flt.isnan operand1 || Flt.ne operand1 (Flt.ofInt (Flt.toInt A.fptosi operand1)) then
      some nanScalar
    else if m.numberOfColumns != m.numberOfRows then
      some nanScalar
    else
      let power := E.approximate c
      if Flt.isnan power || Flt.isinf power
          || Flt.ne power (Flt.ofInt (Flt.toInt A.fptosi power)) then
        some nanScalar
      else if Flt.eq power (Flt.fin 0) then
        -- Build the identity matrix with the same dimensions as m
        (Matrix.ofBuffer (identityOperands m) m.numberOfOperands m.numberOfColumns
          m.numberOfRows).map Expression.matrix
      else if Flt.lt power (Flt.fin 0) then
        let inverse := E.createInverse m
        evaluateWith A E (evaluateOnMatrixAndComplex A E fuel) inverse
          (.complex (Complex.Float (Flt.neg power)))
      else
        some ((List.range (Flt.toInt A.fptosi power).toNat).foldl
          (fun result _ => E.multiply result (.matrix m))
          (.complex (Complex.Float (Flt.fin 1))))

/-- Modelled from the spec: the evaluation of a Power node whose two operands are the values
`base` and `exponent`, with `fuel` bounding the depth of the evaluation. -/
def evaluate (A : Arith R) (E : Env R) (fuel : Nat) (base exponent : Expression R) :
    Option (Expression R) :=
  evaluateWith A E (evaluateOnMatrixAndComplex A E fuel) base exponent

end Power

/-! ## Reference definitions for the matrix power -/

namespace Power

variable {R : Type} [LinearOrderedField R] [FloorRing R]

/-- The `n × n` identity matrix in row-major order: the entry of index `i * n + j` is 1 when
`i = j` and 0 otherwise. -/
def identityMatrix (n : Nat) : Matrix R :=
  ⟨n, n, (List.range (n * n)).map
    (fun idx => Complex.Float (if idx / n = idx % n then Flt.fin 1 else Flt.fin 0))⟩

/-- The left-nested accumulation `mul(…mul(mul(1, M), M)…, M)`: the Multiplication evaluator
applied `k` times, starting from the scalar 1. -/
def accumulate (E : Env R) (m : Matrix R) : Nat → Expression R
  | 0 => .complex (Complex.Float (Flt.fin 1))
  | k + 1 => E.multiply (accumulate E m k) (.matrix m)

/-- The matrix power `M ^ (k + 1)` for the product of the Multiplication evaluator:
`M ^ 1 = M` and `M ^ (k + 2) = M ^ (k + 1) · M`. -/
def matrixPowerSucc (E : Env R) (m : Matrix R) : Nat → Expression R
  | 0 => .matrix m
  | k + 1 => E.multiply (matrixPowerSucc E m k) (.matrix m)

end Power

/-- The exponent fails the validation of `Power::evaluateOnMatrixAndComplex`: its approximation is
NaN, is infinite, or is a finite value that differs from its truncation to an integer. -/
def Flt.NotIntegral {R : Type} [LinearOrderedField R] [FloorRing R] (x : Flt R) : Prop :=
  Flt.isnan x = true ∨ Flt.isinf x = true ∨ ∃ r : R, x = Flt.fin r ∧ r ≠ ((Flt.trunc r : Int) : R)

/-! ## A sample environment -/

namespace Sample

variable {R : Type} [LinearOrderedField R]

/-- Exact product of two finite values. -/
def mul : Flt R → Flt R → Flt R
  | .fin x, .fin y => .fin (x * y)
  | _, _ => .nan

/-- Exact sum of two finite values. -/
def add : Flt R → Flt R → Flt R
  | .fin x, .fin y => .fin (x + y)
  | _, _ => .nan

/-- Exact difference of two finite values. -/
def sub : Flt R → Flt R → Flt R
  | .fin x, .fin y => .fin (x - y)
  | _, _ => .nan

/-- Product of two complex numbers. -/
def mulComplex (z w : Complex R) : Complex R :=
  ⟨sub (mul z.a w.a) (mul z.b w.b), add (mul z.a w.b) (mul z.b w.a)⟩

/-- Sum of two complex numbers. -/
def addComplex (z w : Complex R) : Complex R :=
  ⟨add z.a w.a, add z.b w.b⟩

/-- The entry of row `i` and column `j` of a matrix. -/
def entry (m : Matrix R) (i j : Nat) : Complex R :=
  m.operands.getD (i * m.numberOfColumns + j) ⟨Flt.nan, Flt.nan⟩

/-- Product of two matrices, row by column. -/
def mulMatrix (m n : Matrix R) : Matrix R :=
  ⟨m.numberOfRows, n.numberOfColumns,
    (List.range m.numberOfRows).flatMap (fun i =>
      (List.range n.numberOfColumns).map (fun j =>
        (List.range m.numberOfColumns).foldl
          (fun acc k => addComplex acc (mulComplex (entry m i k) (entry n k j)))
          ⟨Flt.fin 0, Flt.fin 0⟩))⟩

/-- A sample of the collaborators, in exact arithmetic: a complex number with imaginary part 0
approximates to its real part and any other to NaN; the product is the usual one on scalars and
matrices, NaN when the dimensions do not agree; the inverse is taken on the `1 × 1` matrices with
a non-zero real entry, and is NaN on every other matrix. -/
def env : Env R where
  approximate := fun c => if Flt.eq c.b (Flt.fin 0) then c.a else Flt.nan
  createInverse := fun m =>
    match m.numberOfRows, m.numberOfColumns, m.operands with
    | 1, 1, [⟨Flt.fin x, Flt.fin y⟩] =>
      if x ≠ 0 ∧ y = 0 then .matrix ⟨1, 1, [⟨Flt.fin (1 / x), Flt.fin 0⟩]⟩
      else .complex ⟨Flt.nan, Flt.fin 0⟩
    | _, _, _ => .complex ⟨Flt.nan, Flt.fin 0⟩
  multiply := fun x y =>
    match x, y with
    | .complex z, .complex w => .complex (mulComplex z w)
    | .complex z, .matrix m =>
      .matrix ⟨m.numberOfRows, m.numberOfColumns, m.operands.map (mulComplex z)⟩
    | .matrix m, .complex z =>
      .matrix ⟨m.numberOfRows, m.numberOfColumns, m.operands.map (fun w => mulComplex w z)⟩
    | .matrix m, .matrix n =>
      if m.numberOfColumns = n.numberOfRows then .matrix (mulMatrix m n)
      else .complex ⟨Flt.nan, Flt.fin 0⟩

end Sample

/-! ## Exact real arithmetic -/

namespace Exact

/-- Exact real power on finite arguments, with the conventions of C `pow`: `x ^ 0 = 1`, a pole at
`0 ^ y` for `y < 0`, and no value for a negative base with a non-integral exponent. -/
noncomputable def powf : Flt ℝ → Flt ℝ → Flt ℝ
  | .fin x, .fin y =>
    if y = 0 then .fin 1
    else if 0 < x then .fin (x ^ y)
    else if x = 0 then (if 0 < y then .fin 0 else .pinf)
    else if y = ((Flt.trunc y : Int) : ℝ) then .fin (x ^ Flt.trunc y)
    else .nan
  | _, _ => .nan

/-- Exact natural logarithm on finite arguments. -/
noncomputable def logf : Flt ℝ → Flt ℝ
  | .fin x => if 0 < x then .fin (Real.log x) else if x = 0 then .ninf else .nan
  | _ => .nan

/-- Exact square root on finite arguments. -/
noncomputable def sqrtf : Flt ℝ → Flt ℝ
  | .fin x => if 0 ≤ x then .fin (Real.sqrt x) else .nan
  | _ => .nan

/-- Exact cosine on finite arguments. -/
noncomputable def cosf : Flt ℝ → Flt ℝ
  | .fin x => .fin (Real.cos x)
  | _ => .nan

/-- Exact sine on finite arguments. -/
noncomputable def sinf : Flt ℝ → Flt ℝ
  | .fin x => .fin (Real.sin x)
  | _ => .nan

/-- Exact `atan2 y x` on finite arguments: the argument in `(-π, π]` of the point `(x, y)`. -/
noncomputable def atan2f : Flt ℝ → Flt ℝ → Flt ℝ
  | .fin y, .fin x => .fin (Complex.arg (⟨x, y⟩ : ℂ))
  | _, _ => .nan

/-- Exact product on finite arguments. -/
noncomputable def mul : Flt ℝ → Flt ℝ → Flt ℝ
  | .fin x, .fin y => .fin (x * y)
  | _, _ => .nan

/-- Exact sum on finite arguments. -/
noncomputable def add : Flt ℝ → Flt ℝ → Flt ℝ
  | .fin x, .fin y => .fin (x + y)
  | _, _ => .nan

/-- Exact real arithmetic: every operation is the real function, without rounding.  A conversion
to `int` that C leaves undefined gives `INT_MIN`. -/
noncomputable def arith : Arith ℝ where
  powf := powf
  logf := logf
  sqrtf := sqrtf
  cosf := cosf
  sinf := sinf
  atan2f := atan2f
  mul := mul
  add := add
  fptosi := fun _ => Flt.INT_MIN

end Exact

/-! ## Reference definitions for the complex power -/

namespace Power

variable {R : Type} [LinearOrderedField R] [FloorRing R]

/-- The test of Case A, power.cpp:51: the base is real and the exponent is integral. -/
def caseA (c d : Complex R) : Bool :=
  Flt.eq c.b (Flt.fin 0) && Flt.eq d.a (Flt.roundf d.a)

/-- The test of Case B, power.cpp:57: the base is a negative real and the exponent is 0.5. -/
def caseB (c d : Complex R) : Bool :=
  Flt.lt c.a (Flt.fin 0) && Flt.eq c.b (Flt.fin 0) && Flt.eq d.a (Flt.fin (1 / 2))

/-- The algorithm of `Power::evaluateOnComplex` with the tests of lines 51 and 57 exchanged:
Case B is tested before Case A. -/
def evaluateOnComplexCaseBFirst (A : Arith R) (c d : Complex R) : Expression R :=
  if Flt.ne d.b (Flt.fin 0) then
    if Flt.ne c.b (Flt.fin 0) || Flt.le c.a (Flt.fin 0) then
      .complex (Complex.Float Flt.nan)
    else
      .complex (Complex.Polar A (A.powf c.a d.a) (A.mul d.b (A.logf c.a)))
  else if caseB c d then
    .complex (Complex.Cartesian (Flt.fin 0) (A.powf (c.r A) d.a))
  else if caseA c d then
    .complex (Complex.Cartesian (A.powf (c.r A) d.a) (Flt.fin 0))
  else
    .complex (Complex.Polar A (A.powf (c.r A) d.a) (A.mul d.a (c.th A)))

end Power

/-- A complex number of Mathlib as a value of the engine, in exact real arithmetic. -/
def Exact.ofComplex (z : ℂ) : Complex ℝ := ⟨Flt.fin z.re, Flt.fin z.im⟩

/-! ## Expression trees and layouts -/

/-- Modelled from the spec: the operator tag `Expression::Type` (declared in
poincare/expression.h), restricted to the tags of the nodes below. -/
inductive ExpressionType where
  | Symbol
  | Parenthesis
  | Multiplication
  | Power
  deriving DecidableEq

/-- Modelled from the spec: an expression tree, a node with its ordered owned children, the arity
being fixed by the operator. -/
inductive ExpressionNode where
  | symbol (name : Nat) : ExpressionNode
  | parenthesis (operand : ExpressionNode) : ExpressionNode
  | multiplication (left right : ExpressionNode) : ExpressionNode
  | power (base exponent : ExpressionNode) : ExpressionNode
  deriving DecidableEq

/-- The tag of a node, `Expression::type()`. -/
def ExpressionNode.type : ExpressionNode → ExpressionType
  | .symbol _ => .Symbol
  | .parenthesis _ => .Parenthesis
  | .multiplication _ _ => .Multiplication
  | .power _ _ => .Power

/-- Modelled from the spec: the layout-only enumeration `FloatDisplayMode`, with its sentinel
`Default`. -/
inductive FloatDisplayMode where
  | Decimal
  | Scientific
  | Default
  deriving DecidableEq

/-- Modelled from the spec: the layout-only enumeration `ComplexFormat`, with its sentinel
`Default`. -/
inductive ComplexFormat where
  | Cartesian
  | Polar
  | Default
  deriving DecidableEq

/-- The kind of a baseline-relative layout, `BaselineRelativeLayout::Type`. -/
inductive BaselineRelativeType where
  | Subscript
  | Superscript
  deriving DecidableEq

/-- Modelled from the spec: the display trees.  `baselineRelative base indice type` is
`new BaselineRelativeLayout(base, indice, type)`. -/
inductive ExpressionLayout where
  | string (name : Nat) : ExpressionLayout
  | parenthesis (operand : ExpressionLayout) : ExpressionLayout
  | horizontal (left right : ExpressionLayout) : ExpressionLayout
  | baselineRelative (base indice : ExpressionLayout) (type : BaselineRelativeType) :
      ExpressionLayout
  deriving DecidableEq

namespace Power

/-- Modelled from the spec: the constructor `Power(Expression ** newOperands, bool
cloneOperands)`: the Power node whose base is `newOperands[0]` and whose exponent is
`newOperands[1]`, cloned or rewrapped; a clone is the same tree. -/
def ofOperands (newOperands : Nat → ExpressionNode) (_cloneOperands : Bool) : ExpressionNode :=
  .power (newOperands 0) (newOperands 1)

/-- `Power::cloneWithDifferentOperands` (power.cpp:21-25), assertions enabled.  `newOperands` is
the array of operands, read by index; `none` is the failure of the assertion. -/
def cloneWithDifferentOperands (newOperands : Nat → ExpressionNode) (numberOfOperands : Int)
    (cloneOperands : Bool) : Option ExpressionNode :=
  if numberOfOperands = 2 then some (ofOperands newOperands cloneOperands) else none

/-- `Power::privateCreateLayout` (power.cpp:27-36), assertions enabled, on the Power node of
operands `operand0` and `operand1`.  `createLayout` is the layout of an operand,
`Expression::createLayout`; `none` is the failure of an assertion. -/
def privateCreateLayout
    (createLayout : ExpressionNode → FloatDisplayMode → ComplexFormat → ExpressionLayout)
    (operand0 operand1 : ExpressionNode) (floatDisplayMode : FloatDisplayMode)
    (complexFormat : ComplexFormat) : Option ExpressionLayout :=
  if floatDisplayMode = FloatDisplayMode.Default then none
  else if complexFormat = ComplexFormat.Default then none
  else
    -- Delete eventual parentheses of the indice in the pretty print
    let indiceOperand :=
      match operand1 with
      | .parenthesis operand => operand
      | _ => operand1
    some (.baselineRelative (createLayout operand0 floatDisplayMode complexFormat)
      (createLayout indiceOperand floatDisplayMode complexFormat) .Superscript)

end Power

/-- A sample of `Expression::createLayout`: a symbol is laid out as its name, a Parenthesis node
as the parenthesised layout of its operand, a product as the two layouts side by side and a power
as `Power::privateCreateLayout` does. -/
def Sample.createLayout :
    ExpressionNode → FloatDisplayMode → ComplexFormat → ExpressionLayout
  | .symbol name, _, _ => .string name
  | .parenthesis operand, f, c => .parenthesis (Sample.createLayout operand f c)
  | .multiplication left right, f, c =>
    .horizontal (Sample.createLayout left f c) (Sample.createLayout right f c)
  | .power base (.parenthesis operand), f, c =>
    .baselineRelative (Sample.createLayout base f c) (Sample.createLayout operand f c)
      .Superscript
  | .power base exponent, f, c =>
    .baselineRelative (Sample.createLayout base f c) (Sample.createLayout exponent f c)
      .Superscript

/-! ## Properties of the floating-point model -/

namespace Flt

variable {R : Type} [LinearOrderedField R] [FloorRing R]

theorem roundAway_intCast (k : Int) : roundAway (k : R) = k := by
  unfold roundAway
  split
  · rw [Int.floor_eq_iff]
    constructor
    · linarith [show (0 : R) < 1 / 2 by norm_num]
    · linarith [show (1 / 2 : R) < 1 by norm_num]
  · rw [Int.ceil_eq_iff]
    constructor
    · linarith [show (1 / 2 : R) < 1 by norm_num]
    · linarith [show (0 : R) < 1 / 2 by norm_num]

theorem roundAway_half : roundAway (1 / 2 : R) = 1 := by
  unfold roundAway
  rw [if_pos (by norm_num), add_halves]
  exact Int.floor_one

theorem trunc_intCast (k : Int) : trunc (k : R) = k := by
  unfold trunc
  split
  · exact Int.floor_intCast k
  · exact Int.ceil_intCast k

theorem toInt_intCast (ub : Flt R → Int) (k : Int) (h1 : INT_MIN ≤ k) (h2 : k ≤ INT_MAX) :
    toInt ub (fin (k : R)) = k := by
  simp only [toInt, trunc_intCast]
  rw [if_pos ⟨h1, h2⟩]

theorem ne_ofInt_of_intCast (ub : Flt R → Int) (k : Int) (h1 : INT_MIN ≤ k)
    (h2 : k ≤ INT_MAX) :
    ne (fin (k : R)) (ofInt (toInt ub (fin (k : R)))) = false := by
  rw [toInt_intCast ub k h1 h2]
  simp [ne, ofInt, eq]

theorem ne_intCast_of_ne_trunc {r : R} (h : r ≠ ((trunc r : Int) : R)) (u : Int) :
    r ≠ (u : R) := by
  intro hu
  apply h
  rw [hu, trunc_intCast]

theorem ne_ofInt_of_notIntegral (ub : Flt R → Int) {x : Flt R} (h : NotIntegral x) :
    (isnan x || ne x (ofInt (toInt ub x))) = true := by
  rcases h with h | h | ⟨r, rfl, hr⟩
  · simp [h]
  · cases x <;> simp_all [isinf, ne, eq, ofInt]
  · have := ne_intCast_of_ne_trunc hr (toInt ub (fin r))
    simp [ne, eq, ofInt, this]

theorem eq_roundf_half : eq (fin (1 / 2 : R)) (roundf (fin (1 / 2))) = false := by
  simp only [roundf, eq, roundAway_half, decide_eq_false_iff_not]
  norm_num

end Flt

namespace Flt

variable {R : Type} [LinearOrderedField R]

theorem eq_fin_fin (x y : R) : eq (fin x) (fin y) = decide (x = y) := rfl

theorem ne_fin_self (x : R) : ne (fin x) (fin x) = false := by
  simp [ne, eq]

theorem le_eq_false_of_lt {x y : Flt R} (h : lt x y = true) : le y x = false := by
  cases x <;> cases y <;> simp_all [lt, le]

end Flt

/-! ## Properties of exact real arithmetic -/

namespace Exact

theorem r_real (a : ℝ) :
    Complex.r arith ⟨Flt.fin a, Flt.fin 0⟩ = Flt.fin |a| := by
  have h : (0 : ℝ) ≤ a * a + 0 * 0 := by nlinarith [mul_self_nonneg a]
  simp only [Complex.r, arith, mul, add, sqrtf, if_pos h]
  rw [show a * a + 0 * 0 = a * a by ring, Real.sqrt_mul_self_eq_abs]

theorem th_pos_real {a : ℝ} (ha : 0 < a) :
    Complex.th arith ⟨Flt.fin a, Flt.fin 0⟩ = Flt.fin 0 := by
  simp only [Complex.th, arith, atan2f]
  have h : (⟨a, 0⟩ : ℂ) = ((a : ℝ) : ℂ) := rfl
  rw [h, Complex.arg_ofReal_of_nonneg ha.le]

theorem powf_pos {a : ℝ} (ha : 0 < a) (b : ℝ) :
    powf (Flt.fin a) (Flt.fin b) = Flt.fin (a ^ b) := by
  unfold powf
  by_cases hb : b = 0
  · simp [hb]
  · simp [hb, ha]

end Exact

/-! ## The buffer of the identity matrix -/

namespace Buffer

variable {α : Type}

theorem allSet_map_some (l : List α) : allSet (l.map some) = some l := by
  induction l with
  | nil => rfl
  | cons x rest ih => simp [allSet, ih]

theorem length_row (f : Nat → α) (base : Nat) (c : Nat) (l : List α) :
    ((List.range c).foldl (fun acc j => acc.set (base + j) (f j)) l).length = l.length := by
  induction c with
  | zero => rfl
  | succ c ih => simp [List.range_succ, List.foldl_append, ih]

theorem getElem?_row (f : Nat → α) (base : Nat) (c : Nat) (l : List α) (idx : Nat) :
    ((List.range c).foldl (fun acc j => acc.set (base + j) (f j)) l)[idx]?
      = if base ≤ idx ∧ idx < base + c ∧ idx < l.length then some (f (idx - base))
        else l[idx]? := by
  induction c with
  | zero =>
    have h : ¬ (base ≤ idx ∧ idx < base + 0 ∧ idx < l.length) := by omega
    rw [if_neg h]
    rfl
  | succ c ih =>
    simp only [List.range_succ, List.foldl_append, List.foldl_cons, List.foldl_nil,
      List.getElem?_set, length_row, ih]
    by_cases h1 : base + c = idx
    · subst h1
      by_cases h2 : base + c < l.length
      · have h3 : base ≤ base + c ∧ base + c < base + (c + 1) ∧ base + c < l.length := by omega
        simp [h2, h3]
      · have h3 : ¬ (base ≤ base + c ∧ base + c < base + (c + 1) ∧ base + c < l.length) := by
          omega
        simp only [if_true, if_neg h2, if_neg h3]
        exact (List.getElem?_eq_none (by omega)).symm
    · simp only [if_neg h1]
      by_cases h2 : base ≤ idx ∧ idx < base + c ∧ idx < l.length
      · have h3 : base ≤ idx ∧ idx < base + (c + 1) ∧ idx < l.length := by omega
        simp [h2, h3]
      · have h3 : ¬ (base ≤ idx ∧ idx < base + (c + 1) ∧ idx < l.length) := by omega
        simp [h2, h3]

theorem length_rows (f : Nat → Nat → α) (cols : Nat) (r : Nat) (l : List α) :
    ((List.range r).foldl
      (fun acc i => (List.range cols).foldl (fun acc j => acc.set (i * cols + j) (f i j)) acc)
      l).length = l.length := by
  induction r with
  | zero => rfl
  | succ r ih => simp [List.range_succ, List.foldl_append, length_row, ih]

theorem getElem?_rows (f : Nat → Nat → α) (cols : Nat) (hcols : 0 < cols) (r : Nat)
    (l : List α) (idx : Nat) :
    ((List.range r).foldl
      (fun acc i => (List.range cols).foldl (fun acc j => acc.set (i * cols + j) (f i j)) acc)
      l)[idx]?
      = if idx < r * cols ∧ idx < l.length then some (f (idx / cols) (idx % cols))
        else l[idx]? := by
  induction r with
  | zero =>
    have h : ¬ (idx < 0 * cols ∧ idx < l.length) := by omega
    rw [if_neg h]
    rfl
  | succ r ih =>
    simp only [List.range_succ, List.foldl_append, List.foldl_cons, List.foldl_nil,
      getElem?_row, length_rows, ih]
    have hsucc : (r + 1) * cols = r * cols + cols := Nat.succ_mul r cols
    by_cases h1 : r * cols ≤ idx ∧ idx < r * cols + cols ∧ idx < l.length
    · have hdiv : idx / cols = r :=
        Nat.div_eq_of_lt_le h1.1 (by rw [Nat.succ_mul]; exact h1.2.1)
      have hmod : idx % cols = idx - r * cols := by
        have := Nat.div_add_mod idx cols
        rw [hdiv, Nat.mul_comm] at this
        omega
      have h3 : idx < (r + 1) * cols ∧ idx < l.length := by omega
      simp [h1, h3, hdiv, hmod]
    · simp only [if_neg h1]
      by_cases h2 : idx < r * cols ∧ idx < l.length
      · have h3 : idx < (r + 1) * cols ∧ idx < l.length := by omega
        simp [h2, h3]
      · have h3 : ¬ (idx < (r + 1) * cols ∧ idx < l.length) := by omega
        simp [h2, h3]

end Buffer

/-! ## Complex raised to complex -/

namespace Power

variable {R : Type} [LinearOrderedField R] [FloorRing R]

/-- C1. Case A of `Power::evaluateOnComplex`: when the base has imaginary part 0, the exponent has
imaginary part 0 and its real part `a′` satisfies `a′ == roundf(a′)`, the result is exactly
`Cartesian(r ^ a′, 0)` with `r` the radius of the base, whatever the rounding of `powf` and of the
radius; its imaginary part is exactly 0. -/
theorem evaluateOnComplex_caseA (A : Arith R) (c d : Complex R)
    (hc : c.b = Flt.fin 0) (hd : d.b = Flt.fin 0)
    (hint : Flt.eq d.a (Flt.roundf d.a) = true) :
    evaluateOnComplex A c d
        = .complex (Complex.Cartesian (A.powf (c.r A) d.a) (Flt.fin 0))
      ∧ (Complex.Cartesian (A.powf (c.r A) d.a) (Flt.fin 0)).b = Flt.fin 0 := by
  refine ⟨?_, rfl⟩
  simp [evaluateOnComplex, hc, hd, hint, Flt.ne_fin_self, Flt.eq_fin_fin]

/-- Witness of C1 in exact real arithmetic: base (2,0), exponent (3,0) gives exactly (8,0). -/
theorem evaluateOnComplex_caseA_witness :
    Flt.eq (Flt.fin (3 : ℝ)) (Flt.roundf (Flt.fin 3)) = true
      ∧ evaluateOnComplex Exact.arith ⟨Flt.fin 2, Flt.fin 0⟩ ⟨Flt.fin 3, Flt.fin 0⟩
          = .complex ⟨Flt.fin 8, Flt.fin 0⟩ := by
  have hint : Flt.eq (Flt.fin (3 : ℝ)) (Flt.roundf (Flt.fin 3)) = true := by
    have h := Flt.roundAway_intCast (R := ℝ) 3
    norm_num at h
    simp [Flt.roundf, Flt.eq_fin_fin, h]
  refine ⟨hint, ?_⟩
  rw [(evaluateOnComplex_caseA Exact.arith ⟨Flt.fin 2, Flt.fin 0⟩ ⟨Flt.fin 3, Flt.fin 0⟩
    rfl rfl hint).1, Exact.r_real]
  show Expression.complex (Complex.Cartesian (Exact.powf (Flt.fin |2|) (Flt.fin 3)) (Flt.fin 0))
    = _
  rw [abs_of_pos (by norm_num : (0 : ℝ) < 2), Exact.powf_pos (by norm_num)]
  norm_num [Complex.Cartesian]

/-- C2. Case B of `Power::evaluateOnComplex`: for a base `(a, 0)` with `a < 0` and the exponent
`(0.5, 0)`, Case A does not apply (`roundf(0.5) = 1`) and the result is exactly
`Cartesian(0, r ^ 0.5)` with `r` the radius of the base; its real part is exactly 0. -/
theorem evaluateOnComplex_caseB (A : Arith R) (c : Complex R)
    (hneg : Flt.lt c.a (Flt.fin 0) = true) (hc : c.b = Flt.fin 0) :
    evaluateOnComplex A c ⟨Flt.fin (1 / 2), Flt.fin 0⟩
        = .complex (Complex.Cartesian (Flt.fin 0) (A.powf (c.r A) (Flt.fin (1 / 2))))
      ∧ (Complex.Cartesian (Flt.fin 0) (A.powf (c.r A) (Flt.fin (1 / 2)))).a = Flt.fin 0 := by
  refine ⟨?_, rfl⟩
  have h := Flt.eq_roundf_half (R := R)
  simp only [one_div] at h
  simp [evaluateOnComplex, hc, hneg, h, Flt.ne_fin_self, Flt.eq_fin_fin]

/-- Witness of C2 in exact real arithmetic: base (−4,0), exponent (0.5,0) gives exactly (0,2). -/
theorem evaluateOnComplex_caseB_witness :
    Flt.lt (Flt.fin (-4 : ℝ)) (Flt.fin 0) = true
      ∧ evaluateOnComplex Exact.arith ⟨Flt.fin (-4), Flt.fin 0⟩ ⟨Flt.fin (1 / 2), Flt.fin 0⟩
          = .complex ⟨Flt.fin 0, Flt.fin 2⟩ := by
  have hneg : Flt.lt (Flt.fin (-4 : ℝ)) (Flt.fin 0) = true := by
    simp [Flt.lt]
  refine ⟨hneg, ?_⟩
  rw [(evaluateOnComplex_caseB Exact.arith ⟨Flt.fin (-4), Flt.fin 0⟩ hneg rfl).1, Exact.r_real]
  show Expression.complex
    (Complex.Cartesian (Flt.fin 0) (Exact.powf (Flt.fin |(-4)|) (Flt.fin (1 / 2)))) = _
  have h4 : |(-4 : ℝ)| = 4 := by norm_num
  have hs : (4 : ℝ) ^ (1 / 2 : ℝ) = 2 := by
    rw [← Real.sqrt_eq_rpow, show (4 : ℝ) = 2 * 2 by norm_num,
      Real.sqrt_mul_self (by norm_num)]
  rw [h4, Exact.powf_pos (by norm_num), hs]
  rfl

/-- C3. `Power::evaluateOnComplex` returns the NaN scalar as soon as the exponent has a non-zero
imaginary part (`b′ != 0`) and the base has a non-zero imaginary part (`b != 0`) or a real part
`a <= 0`.  The function is total: there is no other outcome than a value. -/
theorem evaluateOnComplex_nan (A : Arith R) (c d : Complex R)
    (hd : Flt.ne d.b (Flt.fin 0) = true)
    (hc : Flt.ne c.b (Flt.fin 0) = true ∨ Flt.le c.a (Flt.fin 0) = true) :
    evaluateOnComplex A c d = .complex (Complex.Float Flt.nan) := by
  have h : (Flt.ne c.b (Flt.fin 0) || Flt.le c.a (Flt.fin 0)) = true := by
    rcases hc with h | h <;> simp [h]
  simp only [evaluateOnComplex, hd, h, if_true]

/-- Witness of C3 in exact real arithmetic: base (1,1), exponent (0,1) gives NaN. -/
theorem evaluateOnComplex_nan_witness :
    Flt.ne (Flt.fin (1 : ℝ)) (Flt.fin 0) = true
      ∧ evaluateOnComplex Exact.arith ⟨Flt.fin 1, Flt.fin 1⟩ ⟨Flt.fin 0, Flt.fin 1⟩
          = .complex (Complex.Float Flt.nan) := by
  have h : Flt.ne (Flt.fin (1 : ℝ)) (Flt.fin 0) = true := by
    simp [Flt.ne, Flt.eq_fin_fin]
  exact ⟨h, evaluateOnComplex_nan Exact.arith ⟨Flt.fin 1, Flt.fin 1⟩ ⟨Flt.fin 0, Flt.fin 1⟩ h
    (Or.inl h)⟩

/-- C4. `Power::evaluateOnComplex` on a positive real base `(a, 0)`, `a > 0`, and an exponent
`(a′, b′)` with `b′ != 0`: the result is `Polar(a ^ a′, b′ · ln a)`, the complex number of radius
`powf(a, a′)` and angle `b′ * logf(a)`. -/
theorem evaluateOnComplex_positive_base (A : Arith R) (c d : Complex R)
    (hpos : Flt.lt (Flt.fin 0) c.a = true) (hc : c.b = Flt.fin 0)
    (hd : Flt.ne d.b (Flt.fin 0) = true) :
    evaluateOnComplex A c d
      = .complex (Complex.Polar A (A.powf c.a d.a) (A.mul d.b (A.logf c.a))) := by
  simp [evaluateOnComplex, hd, hc, Flt.ne_fin_self, Flt.le_eq_false_of_lt hpos]

/-- Witness of C4 in exact real arithmetic: base (2,0), exponent (1,1) gives the complex number
of radius 2 and angle ln 2. -/
theorem evaluateOnComplex_positive_base_witness :
    Flt.lt (Flt.fin (0 : ℝ)) (Flt.fin 2) = true
      ∧ Flt.ne (Flt.fin (1 : ℝ)) (Flt.fin 0) = true
      ∧ evaluateOnComplex Exact.arith ⟨Flt.fin 2, Flt.fin 0⟩ ⟨Flt.fin 1, Flt.fin 1⟩
          = .complex ⟨Flt.fin (2 * Real.cos (Real.log 2)), Flt.fin (2 * Real.sin (Real.log 2))⟩ := by
  have hpos : Flt.lt (Flt.fin (0 : ℝ)) (Flt.fin 2) = true := by
    simp [Flt.lt]
  have hne : Flt.ne (Flt.fin (1 : ℝ)) (Flt.fin 0) = true := by
    simp [Flt.ne, Flt.eq_fin_fin]
  refine ⟨hpos, hne, ?_⟩
  rw [evaluateOnComplex_positive_base Exact.arith ⟨Flt.fin 2, Flt.fin 0⟩ ⟨Flt.fin 1, Flt.fin 1⟩
    hpos rfl hne]
  show Expression.complex (Complex.Polar Exact.arith (Exact.powf (Flt.fin 2) (Flt.fin 1))
    (Exact.mul (Flt.fin 1) (Exact.logf (Flt.fin 2)))) = _
  rw [Exact.powf_pos (by norm_num)]
  simp [Complex.Polar, Exact.arith, Exact.mul, Exact.logf, Exact.cosf, Exact.sinf]

/-- C5. In exact real arithmetic, for every real `a > 0` and every real `b`, the real-domain path
`Power::privateApproximate` on operands approximating to `a` and `b` returns `a ^ b`, and
`Power::evaluateOnComplex` on the base `(a, 0)` and the exponent `(b, 0)` returns the complex
number with that real part and imaginary part 0.  The general polar formula
`Polar(r ^ b, b · θ)` gives the same value, so the result is `(a ^ b, 0)` whether Case A applies
or not. -/
theorem privateApproximate_eq_evaluateOnComplex (a b : ℝ) (ha : 0 < a) :
    privateApproximate Exact.arith (Flt.fin a) (Flt.fin b) = Flt.fin (a ^ b)
      ∧ evaluateOnComplex Exact.arith ⟨Flt.fin a, Flt.fin 0⟩ ⟨Flt.fin b, Flt.fin 0⟩
          = .complex ⟨privateApproximate Exact.arith (Flt.fin a) (Flt.fin b), Flt.fin 0⟩
      ∧ Complex.Polar Exact.arith
            (Exact.arith.powf (Complex.r Exact.arith ⟨Flt.fin a, Flt.fin 0⟩) (Flt.fin b))
            (Exact.arith.mul (Flt.fin b) (Complex.th Exact.arith ⟨Flt.fin a, Flt.fin 0⟩))
          = ⟨Flt.fin (a ^ b), Flt.fin 0⟩ := by
  have hp : privateApproximate Exact.arith (Flt.fin a) (Flt.fin b) = Flt.fin (a ^ b) :=
    Exact.powf_pos ha b
  have hr : Complex.r Exact.arith ⟨Flt.fin a, Flt.fin 0⟩ = Flt.fin a := by
    rw [Exact.r_real, abs_of_pos ha]
  have hpow : Exact.arith.powf (Flt.fin a) (Flt.fin b) = Flt.fin (a ^ b) :=
    Exact.powf_pos ha b
  have hpolar : Complex.Polar Exact.arith
      (Exact.arith.powf (Complex.r Exact.arith ⟨Flt.fin a, Flt.fin 0⟩) (Flt.fin b))
      (Exact.arith.mul (Flt.fin b) (Complex.th Exact.arith ⟨Flt.fin a, Flt.fin 0⟩))
      = ⟨Flt.fin (a ^ b), Flt.fin 0⟩ := by
    rw [hr, hpow, Exact.th_pos_real ha]
    simp [Complex.Polar, Exact.arith, Exact.mul, Exact.cosf, Exact.sinf]
  refine ⟨hp, ?_, hpolar⟩
  have hlt : Flt.lt (Flt.fin a) (Flt.fin (0 : ℝ)) = false := by
    simp [Flt.lt, ha.le]
  rw [hp]
  simp only [evaluateOnComplex, Flt.ne_fin_self, Flt.eq_fin_fin, hlt, decide_True,
    Bool.true_and, Bool.false_and, Bool.false_eq_true, if_false]
  split
  · rw [hr, hpow]
    rfl
  · rw [hpolar]

/-- Witness of C5: `a = 2`, `b = 1 / 2`. -/
theorem privateApproximate_eq_evaluateOnComplex_witness :
    (0 : ℝ) < 2
      ∧ evaluateOnComplex Exact.arith ⟨Flt.fin 2, Flt.fin 0⟩ ⟨Flt.fin (1 / 2), Flt.fin 0⟩
          = .complex ⟨privateApproximate Exact.arith (Flt.fin 2) (Flt.fin (1 / 2)), Flt.fin 0⟩ :=
  ⟨by norm_num, (privateApproximate_eq_evaluateOnComplex 2 (1 / 2) (by norm_num)).2.1⟩

end Power

/-! ## Matrix raised to complex -/

namespace Power

variable {R : Type} [LinearOrderedField R]

theorem identityOperands_square (m : Matrix R) (n : Nat) (hn : 1 ≤ n)
    (hrows : m.numberOfRows = n) (hcols : m.numberOfColumns = n)
    (hsize : m.numberOfOperands = n * n) :
    identityOperands m = (List.range (n * n)).map
      (fun idx => some (Complex.Float (if idx / n = idx % n then Flt.fin 1 else Flt.fin 0))) := by
  have hset : ∀ (l : List (Option (Complex R))) (i j : Nat),
      (if i = j then l.set (i * n + j) (some (Complex.Float (Flt.fin 1)))
        else l.set (i * n + j) (some (Complex.Float (Flt.fin 0))))
      = l.set (i * n + j)
          (some (Complex.Float (if i = j then Flt.fin 1 else Flt.fin 0))) := by
    intro l i j
    split <;> rfl
  unfold identityOperands
  rw [hrows, hcols, hsize]
  simp only [hset]
  apply List.ext_getElem?
  intro idx
  rw [Buffer.getElem?_rows
    (fun i j => some (Complex.Float (if i = j then (Flt.fin 1 : Flt R) else Flt.fin 0)))
    n hn n]
  simp only [List.length_replicate, and_self, List.getElem?_map]
  by_cases h : idx < n * n
  · simp [h, List.getElem?_range h]
  · have h2 : (List.range (n * n))[idx]? = none :=
      List.getElem?_eq_none (by simp; omega)
    simp only [h, h2, if_false, Option.map_none']
    simp
    omega

theorem identityMatrix_getElem? (n i j : Nat) (hj : j < n) (hi : i < n) :
    (identityMatrix n : Matrix R).operands[i * n + j]?
      = some (Complex.Float (if i = j then Flt.fin 1 else Flt.fin 0)) := by
  have hlt : i * n + j < n * n := by
    calc i * n + j < i * n + n := by omega
      _ = (i + 1) * n := (Nat.succ_mul i n).symm
      _ ≤ n * n := Nat.mul_le_mul_right n hi
  have hn : 0 < n := by omega
  have hdiv : (i * n + j) / n = i := by
    rw [Nat.add_comm, Nat.add_mul_div_right _ _ hn, Nat.div_eq_of_lt hj, Nat.zero_add]
  have hmod : (i * n + j) % n = j := by
    rw [Nat.add_comm, Nat.add_mul_mod_self_right, Nat.mod_eq_of_lt hj]
  simp [identityMatrix, List.getElem?_range hlt, hdiv, hmod]

theorem ofBuffer_identityOperands (m : Matrix R) (n : Nat) (hn : 1 ≤ n)
    (hrows : m.numberOfRows = n) (hcols : m.numberOfColumns = n)
    (hsize : m.numberOfOperands = n * n) :
    (Matrix.ofBuffer (identityOperands m) m.numberOfOperands m.numberOfColumns
      m.numberOfRows).map Expression.matrix = some (.matrix (identityMatrix n)) := by
  rw [identityOperands_square m n hn hrows hcols hsize, hsize, hrows, hcols]
  have hlen : ((List.range (n * n)).map (fun idx => some (Complex.Float
      (if idx / n = idx % n then (Flt.fin 1 : Flt R) else Flt.fin 0)))).length ≤ n * n := by
    simp
  rw [Matrix.ofBuffer, List.take_of_length_le hlen]
  have hmap : (List.range (n * n)).map (fun idx => some (Complex.Float
      (if idx / n = idx % n then (Flt.fin 1 : Flt R) else Flt.fin 0)))
      = ((List.range (n * n)).map (fun idx => Complex.Float
          (if idx / n = idx % n then (Flt.fin 1 : Flt R) else Flt.fin 0))).map some := by
    simp
  rw [hmap, Buffer.allSet_map_some]
  rfl

theorem accumulate_sample_isMatrix (m : Matrix R) (hsq : m.numberOfColumns = m.numberOfRows)
    (k : Nat) :
    ∃ M : Matrix R, accumulate Sample.env m (k + 1) = .matrix M
      ∧ M.numberOfColumns = m.numberOfColumns := by
  induction k with
  | zero => exact ⟨_, rfl, rfl⟩
  | succ k ih =>
    obtain ⟨M, hM, hcols⟩ := ih
    refine ⟨Sample.mulMatrix M m, ?_, rfl⟩
    rw [accumulate, hM]
    simp only [Sample.env]
    rw [if_pos (by rw [hcols, hsq])]

theorem foldl_range_eq_accumulate (E : Env R) (m : Matrix R) (k : Nat) :
    (List.range k).foldl (fun result _ => E.multiply result (.matrix m))
      (.complex (Complex.Float (Flt.fin 1))) = accumulate E m k := by
  induction k with
  | zero => rfl
  | succ k ih => simp [List.range_succ, List.foldl_append, ih, accumulate]

theorem accumulate_succ_eq_matrixPowerSucc (E : Env R) (m : Matrix R)
    (h : E.multiply (.complex (Complex.Float (Flt.fin 1))) (.matrix m) = .matrix m) (k : Nat) :
    accumulate E m (k + 1) = matrixPowerSucc E m k := by
  induction k with
  | zero => simpa [accumulate, matrixPowerSucc] using h
  | succ k ih => rw [accumulate, ih, matrixPowerSucc]

end Power

namespace Power

variable {R : Type} [LinearOrderedField R] [FloorRing R]

/-- C6. `Power::evaluateOnMatrixAndComplex` on a square `n × n` matrix (`n ≥ 1`, with its `n · n`
entries, whatever they are) and an exponent approximating to 0: the result is the `n × n`
identity matrix.  It has `n` rows, `n` columns and `n · n` entries, and the entry of index
`i · n + j` is 1 when `i = j` and 0 otherwise. -/
theorem evaluateOnMatrixAndComplex_zero (A : Arith R) (E : Env R) (fuel : Nat)
    (operand1 : Flt R) (m : Matrix R) (c : Complex R) (n : Nat) (hn : 1 ≤ n)
    (hrows : m.numberOfRows = n) (hcols : m.numberOfColumns = n)
    (hsize : m.numberOfOperands = n * n)
    (h1 : operand1 = Flt.fin 0) (hc : E.approximate c = Flt.fin 0) :
    evaluateOnMatrixAndComplex A E (fuel + 1) operand1 m c = some (.matrix (identityMatrix n))
      ∧ (identityMatrix n : Matrix R).numberOfRows = n
      ∧ (identityMatrix n : Matrix R).numberOfColumns = n
      ∧ (identityMatrix n : Matrix R).numberOfOperands = n * n
      ∧ ∀ i j : Nat, i < n → j < n →
          (identityMatrix n : Matrix R).operands[i * n + j]?
            = some (Complex.Float (if i = j then Flt.fin 1 else Flt.fin 0)) := by
  refine ⟨?_, rfl, rfl, by simp [identityMatrix, Matrix.numberOfOperands], ?_⟩
  · have hz := Flt.ne_ofInt_of_intCast (R := R) A.fptosi 0 (by decide) (by decide)
    simp only [Int.cast_zero] at hz
    unfold evaluateOnMatrixAndComplex
    simp only [h1, hc, hz, Flt.isnan, Flt.isinf, Bool.or_self, Bool.false_eq_true, if_false,
      hrows, hcols, bne_self_eq_false, Flt.eq_fin_fin, decide_True, if_true]
    rw [identityOperands_square m n hn hrows hcols hsize, hsize]
    have hlen : ((List.range (n * n)).map (fun idx => some (Complex.Float
        (if idx / n = idx % n then (Flt.fin 1 : Flt R) else Flt.fin 0)))).length ≤ n * n := by
      simp
    rw [Matrix.ofBuffer, List.take_of_length_le hlen]
    have hmap : (List.range (n * n)).map (fun idx => some (Complex.Float
        (if idx / n = idx % n then (Flt.fin 1 : Flt R) else Flt.fin 0)))
        = ((List.range (n * n)).map (fun idx => Complex.Float
            (if idx / n = idx % n then (Flt.fin 1 : Flt R) else Flt.fin 0))).map some := by
      simp
    rw [hmap, Buffer.allSet_map_some]
    rfl
  · intro i j hi hj
    exact identityMatrix_getElem? n i j hj hi

/-- Witness of C6: a `2 × 2` matrix with the exponent 0 gives the `2 × 2` identity. -/
theorem evaluateOnMatrixAndComplex_zero_witness :
    Sample.env.approximate (Complex.Float (Flt.fin (0 : ℝ))) = Flt.fin 0
      ∧ evaluateOnMatrixAndComplex Exact.arith Sample.env 1 (Flt.fin 0)
          ⟨2, 2, [⟨Flt.fin 5, Flt.fin 0⟩, ⟨Flt.fin 6, Flt.fin 0⟩,
            ⟨Flt.fin 7, Flt.fin 0⟩, ⟨Flt.fin 8, Flt.fin 0⟩]⟩ (Complex.Float (Flt.fin 0))
        = some (.matrix ⟨2, 2, [⟨Flt.fin 1, Flt.fin 0⟩, ⟨Flt.fin 0, Flt.fin 0⟩,
            ⟨Flt.fin 0, Flt.fin 0⟩, ⟨Flt.fin 1, Flt.fin 0⟩]⟩) := by
  have ha : Sample.env.approximate (Complex.Float (Flt.fin (0 : ℝ))) = Flt.fin 0 := by
    simp [Sample.env, Complex.Float, Flt.eq_fin_fin]
  refine ⟨ha, ?_⟩
  rw [(evaluateOnMatrixAndComplex_zero Exact.arith Sample.env 0 (Flt.fin 0)
    ⟨2, 2, [⟨Flt.fin 5, Flt.fin 0⟩, ⟨Flt.fin 6, Flt.fin 0⟩,
      ⟨Flt.fin 7, Flt.fin 0⟩, ⟨Flt.fin 8, Flt.fin 0⟩]⟩ (Complex.Float (Flt.fin 0)) 2
    (by decide) rfl rfl rfl rfl ha).1]
  rfl

theorem evaluateOnMatrixAndComplex_of_pos_int (A : Arith R) (E : Env R) (fuel : Nat)
    (operand1 : Flt R) (m : Matrix R) (c : Complex R) (k : Int) (hk : 1 ≤ k)
    (hmax : k ≤ Flt.INT_MAX) (hsq : m.numberOfColumns = m.numberOfRows)
    (h1 : operand1 = Flt.fin (k : R)) (hc : E.approximate c = Flt.fin (k : R)) :
    evaluateOnMatrixAndComplex A E (fuel + 1) operand1 m c = some (accumulate E m k.toNat) := by
  have hmin : Flt.INT_MIN ≤ k := le_trans (by decide) hk
  have hz := Flt.ne_ofInt_of_intCast (R := R) A.fptosi k hmin hmax
  have hz2 := hz
  rw [Flt.toInt_intCast A.fptosi k hmin hmax] at hz2
  have hpos : (0 : R) < k := by exact_mod_cast hk
  unfold evaluateOnMatrixAndComplex
  simp only [h1, hc, hz, hz2, Flt.isnan, Flt.isinf, Bool.or_self, Bool.false_eq_true, if_false,
    hsq, bne_self_eq_false, Flt.eq_fin_fin, Flt.lt, decide_eq_true_eq, hpos.ne',
    not_lt.mpr hpos.le, Flt.toInt_intCast A.fptosi k hmin hmax, foldl_range_eq_accumulate]

theorem evaluateOnMatrixAndComplex_of_neg_int (A : Arith R) (E : Env R) (fuel : Nat)
    (operand1 : Flt R) (m : Matrix R) (c : Complex R) (k : Int) (hk : k < 0)
    (hmin : Flt.INT_MIN ≤ k) (hsq : m.numberOfColumns = m.numberOfRows)
    (h1 : operand1 = Flt.fin (k : R)) (hc : E.approximate c = Flt.fin (k : R)) :
    evaluateOnMatrixAndComplex A E (fuel + 1) operand1 m c
      = evaluate A E fuel (E.createInverse m)
          (.complex (Complex.Float (Flt.fin ((-k : Int) : R)))) := by
  have hmax : k ≤ Flt.INT_MAX := le_trans hk.le (by decide)
  have hz := Flt.ne_ofInt_of_intCast (R := R) A.fptosi k hmin hmax
  have hneg : (k : R) < 0 := by exact_mod_cast hk
  unfold evaluateOnMatrixAndComplex evaluate
  simp only [h1, hc, hz, Flt.isnan, Flt.isinf, Bool.or_self, Bool.false_eq_true, if_false,
    hsq, bne_self_eq_false, Flt.eq_fin_fin, Flt.lt, decide_eq_true_eq, hneg.ne, hneg, if_true,
    Flt.neg, Int.cast_neg]

theorem toInt_of_gt_int_max (ub : Flt R → Int) (k : Int) (hk : Flt.INT_MAX < k) :
    Flt.toInt ub (Flt.fin (k : R)) = ub (Flt.fin (k : R)) := by
  simp only [Flt.toInt, Flt.trunc_intCast]
  rw [if_neg (fun h => absurd h.2 (not_le.mpr hk))]

theorem evaluateOnMatrixAndComplex_of_gt_int_max (A : Arith R) (E : Env R) (fuel : Nat)
    (operand1 : Flt R) (m : Matrix R) (c : Complex R) (k : Int) (hk : Flt.INT_MAX < k)
    (hub : A.fptosi (Flt.fin (k : R)) ≤ Flt.INT_MAX) (h1 : operand1 = Flt.fin (k : R)) :
    evaluateOnMatrixAndComplex A E (fuel + 1) operand1 m c
      = some (.complex (Complex.Float Flt.nan)) := by
  have hne : Flt.ne (Flt.fin (k : R)) (Flt.ofInt (Flt.toInt A.fptosi (Flt.fin (k : R))))
      = true := by
    rw [toInt_of_gt_int_max A.fptosi k hk]
    have hlt : A.fptosi (Flt.fin (k : R)) ≠ k := by omega
    have hcast : (k : R) ≠ ((A.fptosi (Flt.fin (k : R)) : Int) : R) := by
      intro h
      exact hlt (Int.cast_injective h).symm
    simp [Flt.ne, Flt.ofInt, Flt.eq_fin_fin, hcast]
  unfold evaluateOnMatrixAndComplex
  simp only [h1, hne, Bool.or_true, if_true]
  rfl

/-- C7, as amended. `Power::evaluateOnMatrixAndComplex` on a square matrix `M` and an exponent
approximating to an integer `k` with `1 ≤ k ≤ INT_MAX`, the range of the C type `int` of the loop
bound: the result is the left-nested accumulation `mul(…mul(mul(1, M), M)…, M)`, the
Multiplication evaluator applied exactly `k` times from the scalar 1.  When multiplying the scalar 1 by `M` yields `M`, it is the `k`-th matrix power of `M`,
and for `k = 2` it is `M · M`. -/
theorem evaluateOnMatrixAndComplex_positive (A : Arith R) (E : Env R) (fuel : Nat)
    (operand1 : Flt R) (m : Matrix R) (c : Complex R) (k : Nat) (hk : 1 ≤ k)
    (hmax : (k : Int) ≤ Flt.INT_MAX) (hsq : m.numberOfColumns = m.numberOfRows)
    (h1 : operand1 = Flt.fin (k : R)) (hc : E.approximate c = Flt.fin (k : R)) :
    evaluateOnMatrixAndComplex A E (fuel + 1) operand1 m c = some (accumulate E m k)
      ∧ (E.multiply (.complex (Complex.Float (Flt.fin 1))) (.matrix m) = .matrix m →
          evaluateOnMatrixAndComplex A E (fuel + 1) operand1 m c
            = some (matrixPowerSucc E m (k - 1)))
      ∧ (k = 2 → E.multiply (.complex (Complex.Float (Flt.fin 1))) (.matrix m) = .matrix m →
          evaluateOnMatrixAndComplex A E (fuel + 1) operand1 m c
            = some (E.multiply (.matrix m) (.matrix m))) := by
  have hcast : ((k : Int) : R) = (k : R) := Int.cast_natCast k
  have h := evaluateOnMatrixAndComplex_of_pos_int A E fuel operand1 m c (k : Int)
    (by exact_mod_cast hk) hmax hsq (by rw [hcast]; exact h1) (by rw [hcast]; exact hc)
  rw [Int.toNat_ofNat] at h
  refine ⟨h, ?_, ?_⟩
  · intro hone
    obtain ⟨j, rfl⟩ : ∃ j, k = j + 1 := ⟨k - 1, by omega⟩
    rw [h, accumulate_succ_eq_matrixPowerSucc E m hone j, Nat.add_sub_cancel]
  · intro h2 hone
    subst h2
    rw [h, accumulate_succ_eq_matrixPowerSucc E m hone 1]
    rfl

/-- Witness of C7: the `2 × 2` matrix of rows (1, 1) and (0, 1), with the exponent 2, gives its
square, of rows (1, 2) and (0, 1). -/
theorem evaluateOnMatrixAndComplex_positive_witness :
    (2 : Int) ≤ Flt.INT_MAX
      ∧ Sample.env.approximate (Complex.Float (Flt.fin (2 : ℝ))) = Flt.fin ((2 : Nat) : ℝ)
      ∧ evaluateOnMatrixAndComplex Exact.arith Sample.env 1 (Flt.fin 2)
          ⟨2, 2, [⟨Flt.fin 1, Flt.fin 0⟩, ⟨Flt.fin 1, Flt.fin 0⟩,
            ⟨Flt.fin 0, Flt.fin 0⟩, ⟨Flt.fin 1, Flt.fin 0⟩]⟩ (Complex.Float (Flt.fin 2))
        = some (.matrix ⟨2, 2, [⟨Flt.fin 1, Flt.fin 0⟩, ⟨Flt.fin 2, Flt.fin 0⟩,
            ⟨Flt.fin 0, Flt.fin 0⟩, ⟨Flt.fin 1, Flt.fin 0⟩]⟩) := by
  have ha : Sample.env.approximate (Complex.Float (Flt.fin (2 : ℝ)))
      = Flt.fin ((2 : Nat) : ℝ) := by
    simp [Sample.env, Complex.Float, Flt.eq_fin_fin]
  have hone : Sample.env.multiply (.complex (Complex.Float (Flt.fin (1 : ℝ))))
      (.matrix ⟨2, 2, [⟨Flt.fin 1, Flt.fin 0⟩, ⟨Flt.fin 1, Flt.fin 0⟩,
        ⟨Flt.fin 0, Flt.fin 0⟩, ⟨Flt.fin 1, Flt.fin 0⟩]⟩)
      = .matrix ⟨2, 2, [⟨Flt.fin 1, Flt.fin 0⟩, ⟨Flt.fin 1, Flt.fin 0⟩,
        ⟨Flt.fin 0, Flt.fin 0⟩, ⟨Flt.fin 1, Flt.fin 0⟩]⟩ := by
    simp [Sample.env, Complex.Float, Sample.mulComplex, Sample.mul, Sample.sub, Sample.add]
  refine ⟨by decide, ha, ?_⟩
  rw [(evaluateOnMatrixAndComplex_positive Exact.arith Sample.env 0 (Flt.fin 2)
    ⟨2, 2, [⟨Flt.fin 1, Flt.fin 0⟩, ⟨Flt.fin 1, Flt.fin 0⟩,
      ⟨Flt.fin 0, Flt.fin 0⟩, ⟨Flt.fin 1, Flt.fin 0⟩]⟩ (Complex.Float (Flt.fin 2)) 2
    (by decide) (by decide) rfl (by norm_num) ha).2.2 rfl hone]
  simp [Sample.env, Sample.mulMatrix, Sample.entry, Sample.mulComplex, Sample.addComplex,
    Sample.mul, Sample.sub, Sample.add, List.range_succ, List.flatMap]
  norm_num

/-- Counterexample to C7 as stated: the exponent `2 ^ 31 = INT_MAX + 1` is integral and at least
1, its conversion `(int)` does not give it back, and on the `1 × 1` matrix of entry 2 the result is
the NaN scalar returned at line 70, not the accumulation of `2 ^ 31` products, which is a
matrix. -/
theorem evaluateOnMatrixAndComplex_positive_out_of_range :
    evaluateOnMatrixAndComplex Exact.arith Sample.env 1 (Flt.fin 2147483648)
        ⟨1, 1, [⟨Flt.fin 2, Flt.fin 0⟩]⟩ (Complex.Float (Flt.fin 2147483648))
        = some (.complex (Complex.Float Flt.nan))
      ∧ evaluateOnMatrixAndComplex Exact.arith Sample.env 1 (Flt.fin 2147483648)
          ⟨1, 1, [⟨Flt.fin 2, Flt.fin 0⟩]⟩ (Complex.Float (Flt.fin 2147483648))
        ≠ some (accumulate Sample.env
            (⟨1, 1, [⟨Flt.fin 2, Flt.fin 0⟩]⟩ : Matrix ℝ) 2147483648) := by
  have h := evaluateOnMatrixAndComplex_of_gt_int_max Exact.arith Sample.env 0
    (Flt.fin 2147483648) ⟨1, 1, [⟨Flt.fin 2, Flt.fin 0⟩]⟩ (Complex.Float (Flt.fin 2147483648))
    2147483648 (by decide) (by decide) (by norm_num)
  obtain ⟨M, hM, _⟩ := accumulate_sample_isMatrix
    (⟨1, 1, [⟨Flt.fin 2, Flt.fin 0⟩]⟩ : Matrix ℝ) rfl 2147483647
  refine ⟨h, ?_⟩
  rw [h, hM]
  intro hcontra
  cases hcontra

/-- C8, as amended. `Power::evaluateOnMatrixAndComplex` on a square matrix `M` and an exponent
approximating to an integer `k` with `INT_MIN ≤ k < 0`, the range of the C type `int`: the result
is the evaluation of a new Power node of base `createInverse(M)` and exponent `−k`.  When the
inverse is a square matrix, `−k ≤ INT_MAX` and the scalar `−k` approximates to itself, this is the accumulation of the positive
exponent applied to the inverse with `−k`; for `k = −1` it is the inverse itself, given that
multiplying the scalar 1 by the inverse yields the inverse. -/
theorem evaluateOnMatrixAndComplex_negative (A : Arith R) (E : Env R) (fuel : Nat)
    (operand1 : Flt R) (m : Matrix R) (c : Complex R) (k : Int) (hk : k < 0)
    (hmin : Flt.INT_MIN ≤ k) (hsq : m.numberOfColumns = m.numberOfRows)
    (h1 : operand1 = Flt.fin (k : R)) (hc : E.approximate c = Flt.fin (k : R)) :
    evaluateOnMatrixAndComplex A E (fuel + 1) operand1 m c
        = evaluate A E fuel (E.createInverse m)
            (.complex (Complex.Float (Flt.fin ((-k : Int) : R))))
      ∧ (∀ inverse : Matrix R, E.createInverse m = .matrix inverse →
          inverse.numberOfColumns = inverse.numberOfRows →
          E.approximate (Complex.Float (Flt.fin ((-k : Int) : R))) = Flt.fin ((-k : Int) : R) →
          -k ≤ Flt.INT_MAX →
          evaluateOnMatrixAndComplex A E (fuel + 2) operand1 m c
            = some (accumulate E inverse (-k).toNat))
      ∧ (k = -1 → ∀ inverse : Matrix R, E.createInverse m = .matrix inverse →
          inverse.numberOfColumns = inverse.numberOfRows →
          E.approximate (Complex.Float (Flt.fin ((-k : Int) : R))) = Flt.fin ((-k : Int) : R) →
          E.multiply (.complex (Complex.Float (Flt.fin 1))) (.matrix inverse)
            = .matrix inverse →
          evaluateOnMatrixAndComplex A E (fuel + 2) operand1 m c = some (.matrix inverse)) := by
  have hrec : ∀ (inverse : Matrix R), E.createInverse m = .matrix inverse →
      inverse.numberOfColumns = inverse.numberOfRows →
      E.approximate (Complex.Float (Flt.fin ((-k : Int) : R))) = Flt.fin ((-k : Int) : R) →
      -k ≤ Flt.INT_MAX →
      evaluateOnMatrixAndComplex A E (fuel + 2) operand1 m c
        = some (accumulate E inverse (-k).toNat) := by
    intro inverse hinv hsqi happ hmaxk
    rw [evaluateOnMatrixAndComplex_of_neg_int A E (fuel + 1) operand1 m c k hk hmin hsq h1 hc,
      hinv]
    simp only [evaluate, evaluateWith, happ]
    exact evaluateOnMatrixAndComplex_of_pos_int A E fuel _ inverse _ (-k) (by omega) hmaxk hsqi
      rfl happ
  refine ⟨evaluateOnMatrixAndComplex_of_neg_int A E fuel operand1 m c k hk hmin hsq h1 hc,
    hrec, ?_⟩
  intro hk1 inverse hinv hsqi happ hone
  rw [hrec inverse hinv hsqi happ (by rw [hk1]; decide), hk1]
  show some (accumulate E inverse 1) = _
  rw [accumulate_succ_eq_matrixPowerSucc E inverse hone 0]
  rfl

/-- Witness of C8: the `1 × 1` matrix of entry 2, with the exponent −1, gives its inverse, the
`1 × 1` matrix of entry 1/2. -/
theorem evaluateOnMatrixAndComplex_negative_witness :
    Flt.INT_MIN ≤ (-1 : Int)
      ∧ Sample.env.approximate (Complex.Float (Flt.fin (-1 : ℝ))) = Flt.fin (((-1 : Int)) : ℝ)
      ∧ Sample.env.createInverse (⟨1, 1, [⟨Flt.fin 2, Flt.fin 0⟩]⟩ : Matrix ℝ)
          = .matrix ⟨1, 1, [⟨Flt.fin (1 / 2), Flt.fin 0⟩]⟩
      ∧ evaluateOnMatrixAndComplex Exact.arith Sample.env 2 (Flt.fin (-1))
          ⟨1, 1, [⟨Flt.fin 2, Flt.fin 0⟩]⟩ (Complex.Float (Flt.fin (-1)))
        = some (.matrix ⟨1, 1, [⟨Flt.fin (1 / 2), Flt.fin 0⟩]⟩) := by
  have ha : Sample.env.approximate (Complex.Float (Flt.fin (-1 : ℝ)))
      = Flt.fin (((-1 : Int)) : ℝ) := by
    simp [Sample.env, Complex.Float, Flt.eq_fin_fin]
  have ha1 : Sample.env.approximate (Complex.Float (Flt.fin (((-(-1) : Int)) : ℝ)))
      = Flt.fin (((-(-1) : Int)) : ℝ) := by
    simp [Sample.env, Complex.Float, Flt.eq_fin_fin]
  have hinv : Sample.env.createInverse (⟨1, 1, [⟨Flt.fin 2, Flt.fin 0⟩]⟩ : Matrix ℝ)
      = .matrix ⟨1, 1, [⟨Flt.fin (1 / 2), Flt.fin 0⟩]⟩ := by
    simp [Sample.env]
  have hone : Sample.env.multiply (.complex (Complex.Float (Flt.fin (1 : ℝ))))
      (.matrix ⟨1, 1, [⟨Flt.fin (1 / 2), Flt.fin 0⟩]⟩)
      = .matrix ⟨1, 1, [⟨Flt.fin (1 / 2), Flt.fin 0⟩]⟩ := by
    simp [Sample.env, Complex.Float, Sample.mulComplex, Sample.mul, Sample.sub, Sample.add]
  exact ⟨by decide, ha, hinv,
    (evaluateOnMatrixAndComplex_negative Exact.arith Sample.env 0 (Flt.fin (-1))
      ⟨1, 1, [⟨Flt.fin 2, Flt.fin 0⟩]⟩ (Complex.Float (Flt.fin (-1))) (-1) (by decide)
      (by decide) rfl (by norm_num) ha).2.2 rfl _ hinv rfl ha1 hone⟩

/-- Counterexample to C8 as stated: the exponent `k = INT_MIN = −2 ^ 31` is integral and negative
and the inverse of the `1 × 1` matrix of entry 2 is a square matrix, but `−k = 2 ^ 31` does not
fit in `int`: the evaluation of the new Power node returns the NaN scalar at line 70, not the
accumulation of `2 ^ 31` products on the inverse, which is a matrix. -/
theorem evaluateOnMatrixAndComplex_negative_int_min :
    Sample.env.createInverse (⟨1, 1, [⟨Flt.fin 2, Flt.fin 0⟩]⟩ : Matrix ℝ)
        = .matrix ⟨1, 1, [⟨Flt.fin (1 / 2), Flt.fin 0⟩]⟩
      ∧ evaluateOnMatrixAndComplex Exact.arith Sample.env 2 (Flt.fin (-2147483648))
          ⟨1, 1, [⟨Flt.fin 2, Flt.fin 0⟩]⟩ (Complex.Float (Flt.fin (-2147483648)))
        = some (.complex (Complex.Float Flt.nan))
      ∧ evaluateOnMatrixAndComplex Exact.arith Sample.env 2 (Flt.fin (-2147483648))
          ⟨1, 1, [⟨Flt.fin 2, Flt.fin 0⟩]⟩ (Complex.Float (Flt.fin (-2147483648)))
        ≠ some (accumulate Sample.env
            (⟨1, 1, [⟨Flt.fin (1 / 2), Flt.fin 0⟩]⟩ : Matrix ℝ) 2147483648) := by
  have hinv : Sample.env.createInverse (⟨1, 1, [⟨Flt.fin 2, Flt.fin 0⟩]⟩ : Matrix ℝ)
      = .matrix ⟨1, 1, [⟨Flt.fin (1 / 2), Flt.fin 0⟩]⟩ := by
    simp [Sample.env]
  have ha : Sample.env.approximate (Complex.Float (Flt.fin (-2147483648 : ℝ)))
      = Flt.fin (((-2147483648 : Int)) : ℝ) := by
    simp [Sample.env, Complex.Float, Flt.eq_fin_fin]
  have ha1 : Sample.env.approximate
      (Complex.Float (Flt.fin (((-(-2147483648) : Int)) : ℝ)))
      = Flt.fin (((2147483648 : Int)) : ℝ) := by
    simp [Sample.env, Complex.Float, Flt.eq_fin_fin]
  have h : evaluateOnMatrixAndComplex Exact.arith Sample.env 2 (Flt.fin (-2147483648))
      ⟨1, 1, [⟨Flt.fin 2, Flt.fin 0⟩]⟩ (Complex.Float (Flt.fin (-2147483648)))
      = some (.complex (Complex.Float Flt.nan)) := by
    rw [evaluateOnMatrixAndComplex_of_neg_int Exact.arith Sample.env 1
      (Flt.fin (-2147483648)) ⟨1, 1, [⟨Flt.fin 2, Flt.fin 0⟩]⟩
      (Complex.Float (Flt.fin (-2147483648))) (-2147483648) (by decide) (by decide) rfl
      (by norm_num) ha, hinv]
    simp only [evaluate, evaluateWith, ha1]
    exact evaluateOnMatrixAndComplex_of_gt_int_max Exact.arith Sample.env 0 _ _ _ 2147483648
      (by decide) (by decide) rfl
  obtain ⟨M, hM, _⟩ := accumulate_sample_isMatrix
    (⟨1, 1, [⟨Flt.fin (1 / 2), Flt.fin 0⟩]⟩ : Matrix ℝ) rfl 2147483647
  refine ⟨hinv, h, ?_⟩
  rw [h, hM]
  intro hcontra
  cases hcontra

/-- C9. `Power::evaluateOnMatrixAndComplex` returns the NaN scalar for every matrix whose number
of columns differs from its number of rows, whatever the exponent (its two approximations are
arbitrary values) and whatever the collaborators `E`: the result does not depend on the inverse or
on the product, and is a value, never a failure. -/
theorem evaluateOnMatrixAndComplex_not_square (A : Arith R) (E : Env R) (fuel : Nat)
    (operand1 : Flt R) (m : Matrix R) (c : Complex R)
    (h : m.numberOfColumns ≠ m.numberOfRows) :
    evaluateOnMatrixAndComplex A E (fuel + 1) operand1 m c
      = some (.complex (Complex.Float Flt.nan)) := by
  unfold evaluateOnMatrixAndComplex
  split
  · rfl
  · simp [h, nanScalar]

/-- Witness of C9: a matrix of 1 row and 2 columns, exponent 2. -/
theorem evaluateOnMatrixAndComplex_not_square_witness :
    (2 : Nat) ≠ 1
      ∧ evaluateOnMatrixAndComplex Exact.arith Sample.env 1 (Flt.fin 2)
          ⟨1, 2, [⟨Flt.fin 1, Flt.fin 0⟩, ⟨Flt.fin 2, Flt.fin 0⟩]⟩ (Complex.Float (Flt.fin 2))
        = some (.complex (Complex.Float Flt.nan)) :=
  ⟨by decide, evaluateOnMatrixAndComplex_not_square Exact.arith Sample.env 0 (Flt.fin 2)
    ⟨1, 2, [⟨Flt.fin 1, Flt.fin 0⟩, ⟨Flt.fin 2, Flt.fin 0⟩]⟩ (Complex.Float (Flt.fin 2))
    (by decide)⟩

/-- C10. `Power::evaluateOnMatrixAndComplex` returns the NaN scalar for every matrix, square or
not, as soon as the approximation of the exponent operand (tested at line 69) or the approximation
of the evaluated exponent (tested at line 76) is NaN, is infinite, or differs from its truncation
to an integer.  The failure is the value NaN, for every platform value of an undefined
conversion to `int`. -/
theorem evaluateOnMatrixAndComplex_not_integral (A : Arith R) (E : Env R) (fuel : Nat)
    (operand1 : Flt R) (m : Matrix R) (c : Complex R)
    (h : Flt.NotIntegral operand1 ∨ Flt.NotIntegral (E.approximate c)) :
    evaluateOnMatrixAndComplex A E (fuel + 1) operand1 m c
      = some (.complex (Complex.Float Flt.nan)) := by
  unfold evaluateOnMatrixAndComplex
  split
  · rfl
  · rename_i h1
    split
    · rfl
    · rcases h with h | h
      · exact absurd (Flt.ne_ofInt_of_notIntegral A.fptosi h) h1
      · have h2 := Flt.ne_ofInt_of_notIntegral A.fptosi h
        have h3 : (Flt.isnan (E.approximate c) || Flt.isinf (E.approximate c)
            || Flt.ne (E.approximate c) (Flt.ofInt (Flt.toInt A.fptosi (E.approximate c))))
            = true := by
          rcases Bool.or_eq_true _ _ |>.mp h2 with h4 | h4 <;> simp [h4]
        simp only [h3, if_true]
        rfl

/-- Witness of C10: a square matrix with the exponent 1/2, and the same matrix with an infinite
exponent. -/
theorem evaluateOnMatrixAndComplex_not_integral_witness :
    Flt.NotIntegral (Flt.fin (1 / 2 : ℝ))
      ∧ evaluateOnMatrixAndComplex Exact.arith Sample.env 1 (Flt.fin (1 / 2))
          ⟨1, 1, [⟨Flt.fin 3, Flt.fin 0⟩]⟩ (Complex.Float (Flt.fin (1 / 2)))
        = some (.complex (Complex.Float Flt.nan))
      ∧ evaluateOnMatrixAndComplex Exact.arith Sample.env 1 Flt.pinf
          ⟨1, 1, [⟨Flt.fin 3, Flt.fin 0⟩]⟩ (Complex.Float Flt.pinf)
        = some (.complex (Complex.Float Flt.nan)) := by
  have h : Flt.NotIntegral (Flt.fin (1 / 2 : ℝ)) := by
    refine Or.inr (Or.inr ⟨1 / 2, rfl, ?_⟩)
    have ht : Flt.trunc (1 / 2 : ℝ) = 0 := by
      unfold Flt.trunc
      rw [if_pos (by norm_num)]
      rw [Int.floor_eq_iff]
      norm_num
    rw [ht]
    norm_num
  exact ⟨h, evaluateOnMatrixAndComplex_not_integral Exact.arith Sample.env 0 _ _ _ (Or.inl h),
    evaluateOnMatrixAndComplex_not_integral Exact.arith Sample.env 0 _ _ _
      (Or.inl (Or.inr (Or.inl rfl)))⟩

end Power

/-! ## Exact values of the radius, the angle and the power -/

namespace Exact

theorem r_fin (x y : ℝ) :
    Complex.r arith ⟨Flt.fin x, Flt.fin y⟩ = Flt.fin (Real.sqrt (x * x + y * y)) := by
  have h : (0 : ℝ) ≤ x * x + y * y := by nlinarith [mul_self_nonneg x, mul_self_nonneg y]
  simp only [Complex.r, arith, mul, add, sqrtf, if_pos h]

theorem th_fin (x y : ℝ) :
    Complex.th arith ⟨Flt.fin x, Flt.fin y⟩ = Flt.fin (Complex.arg (⟨x, y⟩ : ℂ)) := rfl

theorem th_neg_real {a : ℝ} (ha : a < 0) :
    Complex.th arith ⟨Flt.fin a, Flt.fin 0⟩ = Flt.fin Real.pi := by
  rw [th_fin]
  have h : (⟨a, 0⟩ : ℂ) = ((a : ℝ) : ℂ) := rfl
  rw [h, Complex.arg_ofReal_of_neg ha]

theorem polar_fin (r t : ℝ) :
    Complex.Polar arith (Flt.fin r) (Flt.fin t)
      = ⟨Flt.fin (r * Real.cos t), Flt.fin (r * Real.sin t)⟩ := rfl

theorem mul_fin (x y : ℝ) : arith.mul (Flt.fin x) (Flt.fin y) = Flt.fin (x * y) := rfl

theorem arith_powf_pos {a : ℝ} (ha : 0 < a) (b : ℝ) :
    arith.powf (Flt.fin a) (Flt.fin b) = Flt.fin (a ^ b) :=
  powf_pos ha b

theorem powf_neg_int {a : ℝ} (ha : a < 0) (n : Int) (hn : n ≠ 0) :
    arith.powf (Flt.fin a) (Flt.fin (n : ℝ)) = Flt.fin (a ^ n) := by
  have h0 : (n : ℝ) ≠ 0 := by exact_mod_cast hn
  simp only [arith, powf, h0, if_false, not_lt.mpr ha.le, ha.ne, Flt.trunc_intCast, if_true]

theorem logf_pos {a : ℝ} (ha : 0 < a) : arith.logf (Flt.fin a) = Flt.fin (Real.log a) := by
  simp only [arith, logf, if_pos ha]

theorem ofComplex_exp (u v : ℝ) :
    ofComplex (Complex.exp (⟨u, v⟩ : ℂ))
      = ⟨Flt.fin (Real.exp u * Real.cos v), Flt.fin (Real.exp u * Real.sin v)⟩ := by
  simp [ofComplex, Complex.exp_re, Complex.exp_im]

theorem sqrt_normSq_pos {x y : ℝ} (h : x ≠ 0 ∨ y ≠ 0) : 0 < Real.sqrt (x * x + y * y) := by
  apply Real.sqrt_pos.mpr
  rcases h with h | h
  · nlinarith [mul_self_pos.mpr h, mul_self_nonneg y]
  · nlinarith [mul_self_pos.mpr h, mul_self_nonneg x]

end Exact

/-! ## The remaining pairs of kinds, the tree operations -/

namespace Power

variable {R : Type} [LinearOrderedField R] [FloorRing R]

/-- C11. `Power::evaluateOnComplexAndMatrix` and `Power::evaluateOnMatrices` return the NaN
scalar for every pair of operands, whatever their dimensions and entries; their bodies read
neither the context nor the angle unit.  The evaluation of a Power node on such a pair of values
is therefore NaN, for every arithmetic, every collaborator and every fuel. -/
theorem evaluateOnComplexAndMatrix_evaluateOnMatrices_nan (A : Arith R) (E : Env R)
    (fuel : Nat) (c : Complex R) (m n : Matrix R) :
    evaluateOnComplexAndMatrix c m = .complex (Complex.Float Flt.nan)
      ∧ evaluateOnMatrices m n = .complex (Complex.Float Flt.nan)
      ∧ evaluate A E fuel (.complex c) (.matrix m) = some (.complex (Complex.Float Flt.nan))
      ∧ evaluate A E fuel (.matrix m) (.matrix n) = some (.complex (Complex.Float Flt.nan)) :=
  ⟨rfl, rfl, rfl, rfl⟩

/-- C12. `Power::cloneWithDifferentOperands`, assertions enabled, fails if and only if the
supplied operand count is not 2; when the count is 2 it returns the Power node whose base is the
first supplied operand and whose exponent is the second. -/
theorem cloneWithDifferentOperands_spec (newOperands : Nat → ExpressionNode)
    (numberOfOperands : Int) (cloneOperands : Bool) :
    (cloneWithDifferentOperands newOperands numberOfOperands cloneOperands = none
        ↔ numberOfOperands ≠ 2)
      ∧ (numberOfOperands = 2 →
          cloneWithDifferentOperands newOperands numberOfOperands cloneOperands
            = some (.power (newOperands 0) (newOperands 1))) := by
  unfold cloneWithDifferentOperands ofOperands
  constructor
  · split <;> simp_all
  · intro h
    simp [h]

/-- C17, as amended. `Power::privateCreateLayout` strips exactly one grouping level, from the
exponent only: with display modes other than `Default`, the layout of `Power(x, Parenthesis(e))`
is the superscript composite of the layouts of `x` and `e`; it is the layout of `Power(x, e)`
when `e` is not itself a Parenthesis node; a non-Parenthesis exponent is laid out unchanged; a
Parenthesis node in the base position is kept. -/
theorem privateCreateLayout_strips_one_parenthesis
    (createLayout : ExpressionNode → FloatDisplayMode → ComplexFormat → ExpressionLayout)
    (x e : ExpressionNode) (f : FloatDisplayMode) (c : ComplexFormat)
    (hf : f ≠ FloatDisplayMode.Default) (hc : c ≠ ComplexFormat.Default) :
    privateCreateLayout createLayout x (.parenthesis e) f c
        = some (.baselineRelative (createLayout x f c) (createLayout e f c) .Superscript)
      ∧ (e.type ≠ ExpressionType.Parenthesis →
          privateCreateLayout createLayout x (.parenthesis e) f c
            = privateCreateLayout createLayout x e f c)
      ∧ (e.type ≠ ExpressionType.Parenthesis →
          privateCreateLayout createLayout x e f c
            = some (.baselineRelative (createLayout x f c) (createLayout e f c) .Superscript))
      ∧ privateCreateLayout createLayout (.parenthesis x) (.parenthesis e) f c
          = some (.baselineRelative (createLayout (.parenthesis x) f c) (createLayout e f c)
              .Superscript) := by
  have hplain : e.type ≠ ExpressionType.Parenthesis →
      privateCreateLayout createLayout x e f c
        = some (.baselineRelative (createLayout x f c) (createLayout e f c) .Superscript) := by
    intro he
    cases e <;> simp_all [privateCreateLayout, ExpressionNode.type]
  refine ⟨by simp [privateCreateLayout, hf, hc], ?_, hplain, by simp [privateCreateLayout, hf, hc]⟩
  intro he
  rw [hplain he]
  simp [privateCreateLayout, hf, hc]

/-- Witness of C17, as amended: the power of base `s0` and exponent `(s1)`, in decimal and
Cartesian display. -/
theorem privateCreateLayout_strips_one_parenthesis_witness :
    FloatDisplayMode.Decimal ≠ FloatDisplayMode.Default
      ∧ ComplexFormat.Cartesian ≠ ComplexFormat.Default
      ∧ privateCreateLayout Sample.createLayout (.symbol 0) (.parenthesis (.symbol 1))
          FloatDisplayMode.Decimal ComplexFormat.Cartesian
        = some (.baselineRelative (.string 0) (.string 1) .Superscript) :=
  ⟨by decide, by decide,
    (privateCreateLayout_strips_one_parenthesis Sample.createLayout (.symbol 0) (.symbol 1)
      FloatDisplayMode.Decimal ComplexFormat.Cartesian (by decide) (by decide)).1⟩

/-- Counterexample to C17 as stated: when `e` is itself a Parenthesis node, here `e = (s1)`, the
layout of `Power(s0, Parenthesis(e))` keeps one pair of parentheses around `s1` while the layout
of `Power(s0, e)` has none. -/
theorem privateCreateLayout_nested_parenthesis :
    privateCreateLayout Sample.createLayout (.symbol 0)
        (.parenthesis (.parenthesis (.symbol 1))) FloatDisplayMode.Decimal ComplexFormat.Cartesian
      = some (.baselineRelative (.string 0) (.parenthesis (.string 1)) .Superscript)
    ∧ privateCreateLayout Sample.createLayout (.symbol 0) (.parenthesis (.symbol 1))
        FloatDisplayMode.Decimal ComplexFormat.Cartesian
      = some (.baselineRelative (.string 0) (.string 1) .Superscript)
    ∧ privateCreateLayout Sample.createLayout (.symbol 0)
        (.parenthesis (.parenthesis (.symbol 1))) FloatDisplayMode.Decimal ComplexFormat.Cartesian
      ≠ privateCreateLayout Sample.createLayout (.symbol 0) (.parenthesis (.symbol 1))
        FloatDisplayMode.Decimal ComplexFormat.Cartesian := by
  refine ⟨by decide, by decide, by decide⟩

/-- C13. General case of `Power::evaluateOnComplex`: for an exponent `(a′, 0)`, when neither the
test of Case A nor the test of Case B holds, the result is `Polar(r ^ a′, a′ · θ)` with `r` the
radius and `θ` the angle of the base. -/
theorem evaluateOnComplex_general (A : Arith R) (c d : Complex R)
    (hd : d.b = Flt.fin 0) (hA : caseA c d = false) (hB : caseB c d = false) :
    evaluateOnComplex A c d
      = .complex (Complex.Polar A (A.powf (c.r A) d.a) (A.mul d.a (c.th A))) := by
  unfold caseA at hA
  unfold caseB at hB
  simp only [evaluateOnComplex, hd, Flt.ne_fin_self, hA, hB, Bool.false_eq_true, if_false]

/-- Witness of C13 in exact real arithmetic: base (0,1), exponent (2,0); the polar formula gives
(−1, 0). -/
theorem evaluateOnComplex_general_witness :
    caseA (⟨Flt.fin 0, Flt.fin 1⟩ : Complex ℝ) ⟨Flt.fin 2, Flt.fin 0⟩ = false
      ∧ caseB (⟨Flt.fin 0, Flt.fin 1⟩ : Complex ℝ) ⟨Flt.fin 2, Flt.fin 0⟩ = false
      ∧ evaluateOnComplex Exact.arith ⟨Flt.fin 0, Flt.fin 1⟩ ⟨Flt.fin 2, Flt.fin 0⟩
          = .complex ⟨Flt.fin (-1), Flt.fin 0⟩ := by
  have hA : caseA (⟨Flt.fin 0, Flt.fin 1⟩ : Complex ℝ) ⟨Flt.fin 2, Flt.fin 0⟩ = false := by
    simp [caseA, Flt.eq_fin_fin]
  have hB : caseB (⟨Flt.fin 0, Flt.fin 1⟩ : Complex ℝ) ⟨Flt.fin 2, Flt.fin 0⟩ = false := by
    simp [caseB, Flt.eq_fin_fin]
  refine ⟨hA, hB, ?_⟩
  rw [evaluateOnComplex_general Exact.arith ⟨Flt.fin 0, Flt.fin 1⟩ ⟨Flt.fin 2, Flt.fin 0⟩
    rfl hA hB, Exact.r_fin, Exact.th_fin]
  have hI : (⟨0, 1⟩ : ℂ) = Complex.I := rfl
  have hr : Real.sqrt (0 * 0 + 1 * 1) = 1 := by norm_num
  dsimp only
  rw [hI, Complex.arg_I, hr, Exact.arith_powf_pos one_pos, Exact.mul_fin, Exact.polar_fin]
  have hpi : (2 : ℝ) * (Real.pi / 2) = Real.pi := by ring
  rw [hpi, Real.cos_pi, Real.sin_pi]
  norm_num

/-- C14, at the base (−2, 0) and the exponent (3, 0), in exact real arithmetic: Case A of
`Power::evaluateOnComplex` returns (8, 0), the power of the radius, while the real path
`Power::privateApproximate` returns −8 and the general polar formula `Polar(r ^ 3, 3 · θ)` gives
(−8, 0): on a negative base with an odd exponent the forced result is not the real power. -/
theorem evaluateOnComplex_negative_base_odd_exponent :
    evaluateOnComplex Exact.arith ⟨Flt.fin (-2), Flt.fin 0⟩ ⟨Flt.fin 3, Flt.fin 0⟩
        = .complex ⟨Flt.fin 8, Flt.fin 0⟩
      ∧ privateApproximate Exact.arith (Flt.fin (-2)) (Flt.fin 3) = Flt.fin (-8)
      ∧ Complex.Polar Exact.arith
            (Exact.arith.powf (Complex.r Exact.arith ⟨Flt.fin (-2), Flt.fin 0⟩) (Flt.fin 3))
            (Exact.arith.mul (Flt.fin 3) (Complex.th Exact.arith ⟨Flt.fin (-2), Flt.fin 0⟩))
          = ⟨Flt.fin (-8), Flt.fin 0⟩ := by
  have hr : Complex.r Exact.arith ⟨Flt.fin (-2), Flt.fin 0⟩ = Flt.fin 2 := by
    rw [Exact.r_real]
    norm_num
  have hp : Exact.arith.powf (Flt.fin 2) (Flt.fin 3) = Flt.fin 8 := by
    rw [Exact.arith_powf_pos (by norm_num)]
    norm_num
  have h3 : Flt.roundf (Flt.fin (3 : ℝ)) = Flt.fin 3 := by
    have h := Flt.roundAway_intCast (R := ℝ) 3
    norm_num at h
    simp [Flt.roundf, h]
  refine ⟨?_, ?_, ?_⟩
  · simp only [evaluateOnComplex, Flt.ne_fin_self, Bool.false_eq_true, if_false, h3,
      Flt.eq_fin_fin, decide_True, Bool.and_self, if_true, hr, hp]
    rfl
  · have h := Exact.powf_neg_int (a := -2) (by norm_num) 3 (by decide)
    have hc : ((3 : Int) : ℝ) = 3 := by norm_num
    rw [hc] at h
    rw [privateApproximate, h]
    norm_num
  · rw [hr, hp, Exact.th_neg_real (by norm_num), Exact.mul_fin, Exact.polar_fin]
    have hcos : Real.cos (3 * Real.pi) = -1 := by
      rw [show (3 : ℝ) * Real.pi = Real.pi + 2 * Real.pi by ring, Real.cos_add_two_pi,
        Real.cos_pi]
    have hsin : Real.sin (3 * Real.pi) = 0 := by
      have h := Real.sin_nat_mul_pi 3
      norm_num at h
      exact h
    rw [hcos, hsin]
    norm_num

/-- C15. Case B of `Power::evaluateOnComplex` returns a genuine square root, in exact real
arithmetic: for every `a < 0`, raising `(a, 0)` to `(0.5, 0)` gives `(0, √(−a))`, whose square
under the complex product is the base `(a, 0)`; the angle of the base is `π` and the general
polar formula `Polar(r ^ 0.5, 0.5 · π)` gives the same value. -/
theorem evaluateOnComplex_caseB_sqrt (a : ℝ) (ha : a < 0) :
    evaluateOnComplex Exact.arith ⟨Flt.fin a, Flt.fin 0⟩ ⟨Flt.fin (1 / 2), Flt.fin 0⟩
        = .complex ⟨Flt.fin 0, Flt.fin (Real.sqrt (-a))⟩
      ∧ Sample.mulComplex (⟨Flt.fin 0, Flt.fin (Real.sqrt (-a))⟩ : Complex ℝ)
            ⟨Flt.fin 0, Flt.fin (Real.sqrt (-a))⟩
          = ⟨Flt.fin a, Flt.fin 0⟩
      ∧ Complex.th Exact.arith ⟨Flt.fin a, Flt.fin 0⟩ = Flt.fin Real.pi
      ∧ Complex.Polar Exact.arith
            (Exact.arith.powf (Complex.r Exact.arith ⟨Flt.fin a, Flt.fin 0⟩) (Flt.fin (1 / 2)))
            (Exact.arith.mul (Flt.fin (1 / 2)) (Complex.th Exact.arith ⟨Flt.fin a, Flt.fin 0⟩))
          = ⟨Flt.fin 0, Flt.fin (Real.sqrt (-a))⟩ := by
  have hr : Complex.r Exact.arith ⟨Flt.fin a, Flt.fin 0⟩ = Flt.fin (-a) := by
    rw [Exact.r_real, abs_of_neg ha]
  have hp : Exact.arith.powf (Flt.fin (-a)) (Flt.fin (1 / 2)) = Flt.fin (Real.sqrt (-a)) := by
    rw [Exact.arith_powf_pos (by linarith), Real.sqrt_eq_rpow]
  have hlt : Flt.lt (Flt.fin a) (Flt.fin (0 : ℝ)) = true := by
    simp [Flt.lt, ha]
  have hhalf := Flt.eq_roundf_half (R := ℝ)
  refine ⟨?_, ?_, Exact.th_neg_real ha, ?_⟩
  · simp only [evaluateOnComplex, Flt.ne_fin_self, Bool.false_eq_true, if_false, hhalf,
      Bool.and_false, hlt, Flt.eq_fin_fin, decide_True, Bool.and_self, if_true, hr, hp]
    rfl
  · have hs : Real.sqrt (-a) * Real.sqrt (-a) = -a := Real.mul_self_sqrt (by linarith)
    simp only [Sample.mulComplex, Sample.mul, Sample.sub, Sample.add, hs]
    norm_num
  · rw [hr, hp, Exact.th_neg_real ha, Exact.mul_fin, Exact.polar_fin]
    have hpi : (1 / 2 : ℝ) * Real.pi = Real.pi / 2 := by ring
    rw [hpi, Real.cos_pi_div_two, Real.sin_pi_div_two]
    norm_num

/-- Witness of C15: `a = −4`. -/
theorem evaluateOnComplex_caseB_sqrt_witness :
    (-4 : ℝ) < 0
      ∧ Sample.mulComplex (⟨Flt.fin 0, Flt.fin (Real.sqrt (-(-4)))⟩ : Complex ℝ)
            ⟨Flt.fin 0, Flt.fin (Real.sqrt (-(-4)))⟩
          = ⟨Flt.fin (-4), Flt.fin 0⟩ :=
  ⟨by norm_num, (evaluateOnComplex_caseB_sqrt (-4) (by norm_num)).2.1⟩

/-- C18. In `Power::evaluateOnComplex` the test of Case A and the test of Case B never hold
together (`roundf(0.5) = 1`), so testing Case B before Case A gives the same result for every
pair of operands. -/
theorem caseA_caseB_exclusive (A : Arith R) (c d : Complex R) :
    (caseA c d && caseB c d) = false
      ∧ evaluateOnComplex A c d = evaluateOnComplexCaseBFirst A c d := by
  have hex : (caseA c d && caseB c d) = false := by
    cases hA : caseA c d
    · rfl
    · cases hB : caseB c d
      · rfl
      · exfalso
        simp only [caseA, caseB, Bool.and_eq_true] at hA hB
        obtain ⟨_, h1⟩ := hA
        obtain ⟨_, h2⟩ := hB
        have h3 : d.a = Flt.fin (1 / 2) := by
          cases hda : d.a <;> rw [hda] at h2 <;> simp_all [Flt.eq]
        rw [h3, Flt.eq_roundf_half] at h1
        exact Bool.false_ne_true h1
  refine ⟨hex, ?_⟩
  have hdef : evaluateOnComplex A c d
      = if Flt.ne d.b (Flt.fin 0) then
          if Flt.ne c.b (Flt.fin 0) || Flt.le c.a (Flt.fin 0) then
            .complex (Complex.Float Flt.nan)
          else
            .complex (Complex.Polar A (A.powf c.a d.a) (A.mul d.b (A.logf c.a)))
        else if caseA c d then
          .complex (Complex.Cartesian (A.powf (c.r A) d.a) (Flt.fin 0))
        else if caseB c d then
          .complex (Complex.Cartesian (Flt.fin 0) (A.powf (c.r A) d.a))
        else
          .complex (Complex.Polar A (A.powf (c.r A) d.a) (A.mul d.a (c.th A))) := rfl
  rw [hdef]
  unfold evaluateOnComplexCaseBFirst
  cases hA : caseA c d <;> cases hB : caseB c d
  · rfl
  · simp only [if_true, Bool.false_eq_true, if_false]
  · simp only [if_true, Bool.false_eq_true, if_false]
  · rw [hA, hB] at hex
    exact absurd hex (by decide)

theorem evaluateOnMatrixAndComplex_isSome_of_pos (A : Arith R) (E : Env R) (fuel : Nat)
    (operand1 : Flt R) (m : Matrix R) (c : Complex R) (x : R) (hx : 0 < x)
    (hc : E.approximate c = Flt.fin x) :
    ∃ v, evaluateOnMatrixAndComplex A E (fuel + 1) operand1 m c = some v := by
  unfold evaluateOnMatrixAndComplex
  simp only [hc, Flt.eq_fin_fin, Flt.lt, hx.ne', not_lt.mpr hx.le, decide_False,
    Bool.false_eq_true, if_false]
  split_ifs <;> exact ⟨_, rfl⟩

/-- C16, as amended. `Power::evaluateOnMatrixAndComplex` terminates on every square matrix and
every finite integral exponent `k`, given that the real scalar `−k` approximates to itself: a
recursion depth of one gives a result.  For `0 < k ≤ INT_MAX` the loop bound `(int)power` is `k`
and the result is the accumulation of `k` products.  For `INT_MIN ≤ k < 0` the recursive
evaluation is entered with the exponent `−k > 0`; when the inverse is a square matrix and
`−k ≤ INT_MAX`, one level of recursion gives the accumulation of `−k` products on the
inverse. -/
theorem evaluateOnMatrixAndComplex_terminates (A : Arith R) (E : Env R) (fuel : Nat)
    (operand1 : Flt R) (m : Matrix R) (c : Complex R) (n : Nat) (hn : 1 ≤ n)
    (hrows : m.numberOfRows = n) (hcols : m.numberOfColumns = n)
    (hsize : m.numberOfOperands = n * n) (k : Int)
    (h1 : operand1 = Flt.fin (k : R)) (hc : E.approximate c = Flt.fin (k : R))
    (happ : E.approximate (Complex.Float (Flt.fin ((-k : Int) : R)))
      = Flt.fin ((-k : Int) : R)) :
    (∃ v, evaluateOnMatrixAndComplex A E (fuel + 2) operand1 m c = some v)
      ∧ (0 < k → k ≤ Flt.INT_MAX →
          (Flt.toInt A.fptosi (Flt.fin (k : R))).toNat = k.toNat
            ∧ evaluateOnMatrixAndComplex A E (fuel + 1) operand1 m c
                = some (accumulate E m k.toNat))
      ∧ (k < 0 → Flt.INT_MIN ≤ k →
          Flt.lt (Flt.fin 0) (Flt.fin ((-k : Int) : R)) = true
            ∧ evaluateOnMatrixAndComplex A E (fuel + 1) operand1 m c
                = evaluate A E fuel (E.createInverse m)
                    (.complex (Complex.Float (Flt.fin ((-k : Int) : R))))
            ∧ ∀ inverse : Matrix R, E.createInverse m = .matrix inverse →
                inverse.numberOfColumns = inverse.numberOfRows → -k ≤ Flt.INT_MAX →
                evaluateOnMatrixAndComplex A E 2 operand1 m c
                  = some (accumulate E inverse (-k).toNat)) := by
  have hsq : m.numberOfColumns = m.numberOfRows := by rw [hrows, hcols]
  refine ⟨?_, ?_, ?_⟩
  · have hid := ofBuffer_identityOperands m n hn hrows hcols hsize
    unfold evaluateOnMatrixAndComplex
    simp only [hc, hid]
    split_ifs with h2 h3 h4 h5 h6
    · exact ⟨_, rfl⟩
    · exact ⟨_, rfl⟩
    · exact ⟨_, rfl⟩
    · exact ⟨_, rfl⟩
    · have hneg : (k : R) < 0 := by simpa [Flt.lt] using h6
      have hpos : (0 : R) < ((-k : Int) : R) := by
        rw [Int.cast_neg]
        linarith
      have happ2 : E.approximate (Complex.Float (Flt.neg (Flt.fin (k : R))))
          = Flt.fin ((-k : Int) : R) := by
        rw [← happ, Int.cast_neg]
        rfl
      cases hinv : E.createInverse m with
      | complex z => exact ⟨_, rfl⟩
      | matrix inverse =>
        simp only [evaluateWith]
        exact evaluateOnMatrixAndComplex_isSome_of_pos A E fuel _ inverse _ _ hpos happ2
    · exact ⟨_, rfl⟩
  · intro hk hmax
    have hmin : Flt.INT_MIN ≤ k := le_trans (by decide) hk.le
    exact ⟨by rw [Flt.toInt_intCast A.fptosi k hmin hmax],
      evaluateOnMatrixAndComplex_of_pos_int A E fuel operand1 m c k hk hmax hsq h1 hc⟩
  · intro hk hmin
    have hneg : (0 : R) < ((-k : Int) : R) := by
      have : (k : R) < 0 := by exact_mod_cast hk
      rw [Int.cast_neg]
      linarith
    refine ⟨by simp only [Flt.lt, decide_eq_true_eq]; exact hneg,
      evaluateOnMatrixAndComplex_of_neg_int A E fuel operand1 m c k hk hmin hsq h1 hc, ?_⟩
    intro inverse hinv hsqi hmaxk
    rw [evaluateOnMatrixAndComplex_of_neg_int A E 1 operand1 m c k hk hmin hsq h1 hc, hinv]
    simp only [evaluate, evaluateWith, happ]
    exact evaluateOnMatrixAndComplex_of_pos_int A E 0 _ inverse _ (-k) (by omega) hmaxk hsqi
      rfl happ

/-- Witness of C16: the `1 × 1` matrix of entry 2 with the exponent −1: one level of recursion
and one product give the inverse. -/
theorem evaluateOnMatrixAndComplex_terminates_witness :
    Sample.env.approximate (Complex.Float (Flt.fin (((-(-1) : Int)) : ℝ)))
        = Flt.fin (((-(-1) : Int)) : ℝ)
      ∧ ∃ v, evaluateOnMatrixAndComplex Exact.arith Sample.env 2 (Flt.fin (((-1 : Int)) : ℝ))
          ⟨1, 1, [⟨Flt.fin 2, Flt.fin 0⟩]⟩ (Complex.Float (Flt.fin (-1))) = some v := by
  have ha : Sample.env.approximate (Complex.Float (Flt.fin (-1 : ℝ)))
      = Flt.fin (((-1 : Int)) : ℝ) := by
    simp [Sample.env, Complex.Float, Flt.eq_fin_fin]
  have ha1 : Sample.env.approximate (Complex.Float (Flt.fin (((-(-1) : Int)) : ℝ)))
      = Flt.fin (((-(-1) : Int)) : ℝ) := by
    simp [Sample.env, Complex.Float, Flt.eq_fin_fin]
  exact ⟨ha1, (evaluateOnMatrixAndComplex_terminates Exact.arith Sample.env 0
    (Flt.fin (((-1 : Int)) : ℝ)) ⟨1, 1, [⟨Flt.fin 2, Flt.fin 0⟩]⟩ (Complex.Float (Flt.fin (-1)))
    1 (by decide) rfl rfl rfl (-1) rfl ha ha1).1⟩

/-- C19. Where `Power::evaluateOnComplex` returns through a polar formula with a non-zero base,
the value is, in exact real arithmetic, the principal complex power.  For a base `(a, 0)` with
`a > 0` and an exponent `d = (a′, b′)` with `b′ ≠ 0`, the result `Polar(a ^ a′, b′ · ln a)` is
`exp(d · ln a)`, that is `a ^ d`.  For a base `c = (x, y) ≠ 0` of radius `r` and angle `θ`, with
`−π < θ ≤ π`, and a real exponent `e`, the value `Polar(r ^ e, e · θ)` is `exp(e · (ln r + iθ))`,
that is `c ^ e`, and it is the result whenever neither Case A nor Case B applies. -/
theorem evaluateOnComplex_principal_power (a a' b' x y e : ℝ) (ha : 0 < a) (hb : b' ≠ 0)
    (hc : x ≠ 0 ∨ y ≠ 0) :
    evaluateOnComplex Exact.arith ⟨Flt.fin a, Flt.fin 0⟩ ⟨Flt.fin a', Flt.fin b'⟩
        = .complex (Exact.ofComplex
            (Complex.exp ((⟨a', b'⟩ : ℂ) * ((Real.log a : ℝ) : ℂ))))
      ∧ Complex.exp ((⟨a', b'⟩ : ℂ) * ((Real.log a : ℝ) : ℂ)) = ((a : ℝ) : ℂ) ^ (⟨a', b'⟩ : ℂ)
      ∧ Complex.Polar Exact.arith
            (Exact.arith.powf (Complex.r Exact.arith ⟨Flt.fin x, Flt.fin y⟩) (Flt.fin e))
            (Exact.arith.mul (Flt.fin e) (Complex.th Exact.arith ⟨Flt.fin x, Flt.fin y⟩))
          = Exact.ofComplex (Complex.exp (((e : ℝ) : ℂ)
              * (⟨Real.log (Real.sqrt (x * x + y * y)), Complex.arg (⟨x, y⟩ : ℂ)⟩ : ℂ)))
      ∧ Complex.exp (((e : ℝ) : ℂ)
            * (⟨Real.log (Real.sqrt (x * x + y * y)), Complex.arg (⟨x, y⟩ : ℂ)⟩ : ℂ))
          = (⟨x, y⟩ : ℂ) ^ ((e : ℝ) : ℂ)
      ∧ (-Real.pi < Complex.arg (⟨x, y⟩ : ℂ) ∧ Complex.arg (⟨x, y⟩ : ℂ) ≤ Real.pi)
      ∧ (caseA (⟨Flt.fin x, Flt.fin y⟩ : Complex ℝ) ⟨Flt.fin e, Flt.fin 0⟩ = false →
          caseB (⟨Flt.fin x, Flt.fin y⟩ : Complex ℝ) ⟨Flt.fin e, Flt.fin 0⟩ = false →
          evaluateOnComplex Exact.arith ⟨Flt.fin x, Flt.fin y⟩ ⟨Flt.fin e, Flt.fin 0⟩
            = .complex (Exact.ofComplex (Complex.exp (((e : ℝ) : ℂ)
                * (⟨Real.log (Real.sqrt (x * x + y * y)), Complex.arg (⟨x, y⟩ : ℂ)⟩ : ℂ))))) := by
  have hz1 : (⟨a', b'⟩ : ℂ) * ((Real.log a : ℝ) : ℂ)
      = (⟨a' * Real.log a, b' * Real.log a⟩ : ℂ) := by
    apply Complex.ext <;> simp
  have hz2 : ((e : ℝ) : ℂ)
      * (⟨Real.log (Real.sqrt (x * x + y * y)), Complex.arg (⟨x, y⟩ : ℂ)⟩ : ℂ)
      = (⟨e * Real.log (Real.sqrt (x * x + y * y)), e * Complex.arg (⟨x, y⟩ : ℂ)⟩ : ℂ) := by
    apply Complex.ext <;> simp
  have hrpos := Exact.sqrt_normSq_pos hc
  have hpolar : Complex.Polar Exact.arith
      (Exact.arith.powf (Complex.r Exact.arith ⟨Flt.fin x, Flt.fin y⟩) (Flt.fin e))
      (Exact.arith.mul (Flt.fin e) (Complex.th Exact.arith ⟨Flt.fin x, Flt.fin y⟩))
      = Exact.ofComplex (Complex.exp (((e : ℝ) : ℂ)
          * (⟨Real.log (Real.sqrt (x * x + y * y)), Complex.arg (⟨x, y⟩ : ℂ)⟩ : ℂ))) := by
    rw [hz2, Exact.ofComplex_exp, Exact.r_fin, Exact.th_fin, Exact.arith_powf_pos hrpos,
      Exact.mul_fin, Exact.polar_fin, Real.rpow_def_of_pos hrpos, mul_comm e (Real.log _)]
  refine ⟨?_, ?_, hpolar, ?_, ⟨Complex.neg_pi_lt_arg _, Complex.arg_le_pi _⟩, ?_⟩
  · have hne : Flt.ne (Flt.fin b') (Flt.fin (0 : ℝ)) = true := by
      simp [Flt.ne, Flt.eq_fin_fin, hb]
    have hle : Flt.le (Flt.fin a) (Flt.fin (0 : ℝ)) = false := by
      simp [Flt.le, ha]
    simp only [evaluateOnComplex, hne, Flt.ne_fin_self, hle, Bool.or_self, Bool.false_eq_true,
      if_true, if_false]
    rw [hz1, Exact.ofComplex_exp, Exact.arith_powf_pos ha, Exact.logf_pos ha, Exact.mul_fin,
      Exact.polar_fin, Real.rpow_def_of_pos ha, mul_comm a' (Real.log a)]
  · have ha0 : ((a : ℝ) : ℂ) ≠ 0 := by exact_mod_cast ha.ne'
    rw [Complex.cpow_def_of_ne_zero ha0, ← Complex.ofReal_log ha.le, mul_comm]
  · have hc0 : (⟨x, y⟩ : ℂ) ≠ 0 := by
      intro h
      have h1 := congrArg Complex.re h
      have h2 := congrArg Complex.im h
      simp at h1 h2
      rcases hc with h3 | h3
      · exact h3 h1
      · exact h3 h2
    have hlog : Complex.log (⟨x, y⟩ : ℂ)
        = (⟨Real.log (Real.sqrt (x * x + y * y)), Complex.arg (⟨x, y⟩ : ℂ)⟩ : ℂ) := by
      apply Complex.ext
      · simp [Complex.log_re, Complex.abs_apply, Complex.normSq_apply]
      · simp [Complex.log_im]
    rw [Complex.cpow_def_of_ne_zero hc0, hlog, mul_comm]
  · intro hA hB
    unfold caseA at hA
    unfold caseB at hB
    simp only [evaluateOnComplex, Flt.ne_fin_self, hA, hB, Bool.false_eq_true, if_false]
    rw [hpolar]

/-- Witness of C19: the base (2, 0) with the exponent (1, 1), and the base (0, 1). -/
theorem evaluateOnComplex_principal_power_witness :
    (0 : ℝ) < 2 ∧ (1 : ℝ) ≠ 0 ∧ ((0 : ℝ) ≠ 0 ∨ (1 : ℝ) ≠ 0)
      ∧ evaluateOnComplex Exact.arith ⟨Flt.fin 2, Flt.fin 0⟩ ⟨Flt.fin 1, Flt.fin 1⟩
        = .complex (Exact.ofComplex
            (Complex.exp ((⟨1, 1⟩ : ℂ) * ((Real.log 2 : ℝ) : ℂ)))) :=
  ⟨by norm_num, by norm_num, Or.inr (by norm_num),
    (evaluateOnComplex_principal_power 2 1 1 0 1 2 (by norm_num) (by norm_num)
      (Or.inr (by norm_num))).1⟩

/-- Counterexample to C16 as stated: with the finite integral exponent `k = 2 ^ 31 > 0` on a
`2 × 2` matrix the evaluation terminates, but the loop does not run `k` iterations: the conversion
`(int)power` gives `INT_MIN`, a loop bound of no iteration, and the function returns the NaN
scalar at line 70, not the accumulation of `k` products, which is a matrix. -/
theorem evaluateOnMatrixAndComplex_loop_out_of_range :
    (Flt.toInt Exact.arith.fptosi (Flt.fin (2147483648 : ℝ))).toNat = 0
      ∧ evaluateOnMatrixAndComplex Exact.arith Sample.env 2 (Flt.fin 2147483648)
          ⟨2, 2, [⟨Flt.fin 1, Flt.fin 0⟩, ⟨Flt.fin 1, Flt.fin 0⟩,
            ⟨Flt.fin 0, Flt.fin 0⟩, ⟨Flt.fin 1, Flt.fin 0⟩]⟩
          (Complex.Float (Flt.fin 2147483648))
        = some (.complex (Complex.Float Flt.nan))
      ∧ evaluateOnMatrixAndComplex Exact.arith Sample.env 2 (Flt.fin 2147483648)
          ⟨2, 2, [⟨Flt.fin 1, Flt.fin 0⟩, ⟨Flt.fin 1, Flt.fin 0⟩,
            ⟨Flt.fin 0, Flt.fin 0⟩, ⟨Flt.fin 1, Flt.fin 0⟩]⟩
          (Complex.Float (Flt.fin 2147483648))
        ≠ some (accumulate Sample.env
            (⟨2, 2, [⟨Flt.fin 1, Flt.fin 0⟩, ⟨Flt.fin 1, Flt.fin 0⟩,
              ⟨Flt.fin 0, Flt.fin 0⟩, ⟨Flt.fin 1, Flt.fin 0⟩]⟩ : Matrix ℝ) 2147483648) := by
  have hcast : (2147483648 : ℝ) = ((2147483648 : Int) : ℝ) := by norm_num
  have hbound : (Flt.toInt Exact.arith.fptosi (Flt.fin (2147483648 : ℝ))).toNat = 0 := by
    rw [hcast, toInt_of_gt_int_max Exact.arith.fptosi 2147483648 (by decide)]
    rfl
  have h := evaluateOnMatrixAndComplex_of_gt_int_max Exact.arith Sample.env 1
    (Flt.fin 2147483648)
    ⟨2, 2, [⟨Flt.fin 1, Flt.fin 0⟩, ⟨Flt.fin 1, Flt.fin 0⟩,
      ⟨Flt.fin 0, Flt.fin 0⟩, ⟨Flt.fin 1, Flt.fin 0⟩]⟩
    (Complex.Float (Flt.fin 2147483648)) 2147483648 (by decide) (by decide) (by rw [hcast])
  obtain ⟨M, hM, _⟩ := accumulate_sample_isMatrix
    (⟨2, 2, [⟨Flt.fin 1, Flt.fin 0⟩, ⟨Flt.fin 1, Flt.fin 0⟩,
      ⟨Flt.fin 0, Flt.fin 0⟩, ⟨Flt.fin 1, Flt.fin 0⟩]⟩ : Matrix ℝ) rfl 2147483647
  refine ⟨hbound, h, ?_⟩
  rw [h, hM]
  intro hcontra
  cases hcontra

end Power

end Poincare
